import Mathlib

/-! Ray-Traced-Objects: the recursive sphere shader of `rt.cpp`.

A shallow embedding of `src/rt.cpp`, twice.

The first embedding reads the C++ `float` as the real numbers `ℝ` (exact
arithmetic, `std::sqrt` as `Real.sqrt`), the reading the specification takes
when it speaks "over exact reals".  It carries the statements about the
geometry and about the control flow.  Rounding, overflow, NaN and infinities
are outside it.

The second embedding, `F32` and the namespace `B32`, is the same code in IEEE 754
binary32, every operation rounded once as the source orders them.  It is
computable, and it is used to evaluate the code on concrete inputs where
rounding or overflow decides the answer.

`int depth` is an integer `ℤ`: the only arithmetic on it is `depth + 1` under
the guard `depth < 2`.

Float literals are the decimals they spell (`0.1f` is `0.1`, `1.0f` is `1`).
Division by zero follows Lean's convention `x / 0 = 0` (so `normalize` of the
zero vector is the zero vector); a statement about the value of a quotient
assumes what makes the divisor non-zero.
-/

namespace RayTraced

/-! ## Vector math (`class Vec3`, rt.cpp 7-46) -/

/-- A 3D vector of three float fields `x, y, z`. -/
@[ext]
structure Vec3 where
  x : ℝ
  y : ℝ
  z : ℝ

namespace Vec3

/-- The default constructor `Vec3()`: all fields zero. -/
def zero : Vec3 := ⟨0, 0, 0⟩

/-- The source's `operator+`. -/
def add (a v : Vec3) : Vec3 := ⟨a.x + v.x, a.y + v.y, a.z + v.z⟩

/-- The source's `operator-`. -/
def sub (a v : Vec3) : Vec3 := ⟨a.x - v.x, a.y - v.y, a.z - v.z⟩

/-- The source's `operator*(float scalar)`. -/
def scale (a : Vec3) (scalar : ℝ) : Vec3 := ⟨a.x * scalar, a.y * scalar, a.z * scalar⟩

instance : Add Vec3 := ⟨add⟩
instance : Sub Vec3 := ⟨sub⟩
instance : HMul Vec3 ℝ Vec3 := ⟨scale⟩

/-- The source's `dot`: `x * v.x + y * v.y + z * v.z`. -/
def dot (a v : Vec3) : ℝ := a.x * v.x + a.y * v.y + a.z * v.z

/-- The source's `normalize`: every field divided by
`length = sqrt(x*x + y*y + z*z)`, in exact arithmetic; `B32.Vec3.normalize` is
the same code in binary32. -/
noncomputable def normalize (a : Vec3) : Vec3 :=
  let length := Real.sqrt (a.x * a.x + a.y * a.y + a.z * a.z)
  ⟨a.x / length, a.y / length, a.z / length⟩

/-- The source's `reflect`: `*this - normal * (2 * this->dot(normal))`. -/
def reflect (a normal : Vec3) : Vec3 := a - normal * (2 * a.dot normal)

/-- The source's `refract`, the zero vector being the sentinel of total internal
reflection. -/
noncomputable def refract (a normal : Vec3) (refractiveIndex : ℝ) : Vec3 :=
  let cosI := -(normal.dot a)
  let sinT2 := refractiveIndex * refractiveIndex * (1 - cosI * cosI)
  if sinT2 > 1 then ⟨0, 0, 0⟩
  else
    let cosT := Real.sqrt (1 - sinT2)
    a * refractiveIndex + normal * (refractiveIndex * cosI - cosT)

/-- Euclidean length, `sqrt(x*x + y*y + z*z)` as `normalize` computes it. -/
noncomputable def length (a : Vec3) : ℝ := Real.sqrt (a.x * a.x + a.y * a.y + a.z * a.z)

end Vec3

/-! ## Rays (`class Ray`, rt.cpp 48-53) -/

/-- A ray: the two public fields `origin` and `direction`. -/
structure Ray where
  origin : Vec3
  direction : Vec3

/-- The constructor `Ray(o, d)`: the stored direction is `d.normalize()`. -/
noncomputable def Ray.new (o d : Vec3) : Ray := ⟨o, d.normalize⟩

/-! ## Spheres (`class Sphere`, rt.cpp 55-77) -/

/-- A sphere with its material. -/
structure Sphere where
  center : Vec3
  radius : ℝ
  color : Vec3
  reflectivity : ℝ
  refractiveIndex : ℝ := 1

namespace Sphere

/-- The quadratic's `a = dot(direction, direction)`. -/
def quadA (ray : Ray) : ℝ := ray.direction.dot ray.direction

/-- The quadratic's `b = 2 * dot(oc, direction)` with `oc = origin - center`. -/
def quadB (s : Sphere) (ray : Ray) : ℝ := 2 * (ray.origin - s.center).dot ray.direction

/-- The quadratic's `c = dot(oc, oc) - radius * radius`. -/
def quadC (s : Sphere) (ray : Ray) : ℝ :=
  (ray.origin - s.center).dot (ray.origin - s.center) - s.radius * s.radius

/-- The source's `discriminant = b * b - 4 * a * c`. -/
def discriminant (s : Sphere) (ray : Ray) : ℝ :=
  quadB s ray * quadB s ray - 4 * quadA ray * quadC s ray

/-- The value the source assigns to `t`: `(-b - sqrt(discriminant)) / (2 * a)`. -/
noncomputable def nearRoot (s : Sphere) (ray : Ray) : ℝ :=
  (-(quadB s ray) - Real.sqrt (discriminant s ray)) / (2 * quadA ray)

/-- The source's `bool intersect(const Ray&, float& t)`: `some t` stands for
`true` with the out-parameter set to `t`, `none` for `false` (the caller reads
`t` only after `true`).  Exact arithmetic; `B32.Sphere.intersect` is the same
code in binary32. -/
noncomputable def intersect (s : Sphere) (ray : Ray) : Option ℝ :=
  if discriminant s ray < 0 then none
  else
    let t := nearRoot s ray
    if t > 0 then some t else none

end Sphere

/-! ## Scene (`class Scene`, rt.cpp 79-86) -/

/-- The scene: the vector of spheres, in insertion order. -/
structure Scene where
  spheres : List Sphere := []

/-- The source's `addSphere`: `push_back`. -/
def Scene.addSphere (scene : Scene) (sphere : Sphere) : Scene :=
  ⟨scene.spheres ++ [sphere]⟩

/-! ## The shader (`calculateColor`, rt.cpp 88-135) -/

/-- The constant `std::numeric_limits<float>::max()`, `2^128 - 2^104`. -/
def FLT_MAX : ℝ := 340282346638528859811704183484516925440

/-- The loop of rt.cpp 92-98 over the spheres from position `i` on.  The state
is `(nearestT, hitSphere)`; the pointer `hitSphere` is `none` for `nullptr` and
otherwise the position in the vector together with the sphere found there. -/
noncomputable def scanSpheres (ray : Ray) :
    List Sphere → ℕ → ℝ × Option (ℕ × Sphere) → ℝ × Option (ℕ × Sphere)
  | [], _, st => st
  | sphere :: rest, i, (nearestT, hitSphere) =>
    match sphere.intersect ray with
    | some t =>
      if t < nearestT then scanSpheres ray rest (i + 1) (t, some (i, sphere))
      else scanSpheres ray rest (i + 1) (nearestT, hitSphere)
    | none => scanSpheres ray rest (i + 1) (nearestT, hitSphere)

/-- The nearest-hit query of rt.cpp 89-98: the loop started from
`nearestT = FLT_MAX`, `hitSphere = nullptr`. -/
noncomputable def nearestHit (scene : Scene) (ray : Ray) : ℝ × Option (ℕ × Sphere) :=
  scanSpheres ray scene.spheres 0 (FLT_MAX, none)

/-- The source's `hitPoint = ray.origin + ray.direction * nearestT`. -/
def hitPoint (ray : Ray) (nearestT : ℝ) : Vec3 := ray.origin + ray.direction * nearestT

/-- The source's `normal = (hitPoint - hitSphere->center).normalize()`. -/
noncomputable def normalAt (ray : Ray) (nearestT : ℝ) (hitSphere : Sphere) : Vec3 :=
  (hitPoint ray nearestT - hitSphere.center).normalize

/-- The source's `lightDir = (lightPos - hitPoint).normalize()`. -/
noncomputable def lightDirAt (ray : Ray) (nearestT : ℝ) (lightPos : Vec3) : Vec3 :=
  (lightPos - hitPoint ray nearestT).normalize

/-- The source's `viewDir = (ray.origin - hitPoint).normalize()`. -/
noncomputable def viewDirAt (ray : Ray) (nearestT : ℝ) : Vec3 :=
  (ray.origin - hitPoint ray nearestT).normalize

/-- The local colour of rt.cpp 105-114: `ambient + diffuse + specular`. -/
noncomputable def localColor (ray : Ray) (nearestT : ℝ) (hitSphere : Sphere)
    (lightPos : Vec3) : Vec3 :=
  let normal := normalAt ray nearestT hitSphere
  let lightDir := lightDirAt ray nearestT lightPos
  let ambient := hitSphere.color * (0.1 : ℝ)
  let diffuseFactor := max 0 (normal.dot lightDir)
  let diffuse := hitSphere.color * diffuseFactor
  let viewDir := viewDirAt ray nearestT
  let reflectDir := lightDir.reflect normal
  let specularFactor := (max 0 (viewDir.dot reflectDir)) ^ 32
  let specular := (⟨1, 1, 1⟩ : Vec3) * specularFactor
  ambient + diffuse + specular

/-- The reflection ray of rt.cpp 117-118. -/
noncomputable def reflectionRay (ray : Ray) (nearestT : ℝ) (hitSphere : Sphere) : Ray :=
  let normal := normalAt ray nearestT hitSphere
  let reflectionDir := ray.direction.reflect normal
  Ray.new (hitPoint ray nearestT + normal * (0.001 : ℝ)) reflectionDir

/-- The source's `refractionDir = ray.direction.refract(normal, 1.0f / refractiveIndex)`. -/
noncomputable def refractionDir (ray : Ray) (nearestT : ℝ) (hitSphere : Sphere) : Vec3 :=
  ray.direction.refract (normalAt ray nearestT hitSphere) (1 / hitSphere.refractiveIndex)

/-- The refraction ray of rt.cpp 125, from the exact root and hit point;
`B32.refractionRay` is the same code in binary32. -/
noncomputable def refractionRay (ray : Ray) (nearestT : ℝ) (hitSphere : Sphere) : Ray :=
  Ray.new (hitPoint ray nearestT - normalAt ray nearestT hitSphere * (0.001 : ℝ))
    (refractionDir ray nearestT hitSphere)

/-- The test `refractionDir.x != 0 || refractionDir.y != 0 || refractionDir.z != 0`. -/
def notZeroSentinel (v : Vec3) : Prop := v.x ≠ 0 ∨ v.y ≠ 0 ∨ v.z ≠ 0

noncomputable instance (v : Vec3) : Decidable (notZeroSentinel v) := by
  unfold notZeroSentinel
  infer_instance

/-- The background colour `Vec3(0.2f, 0.2f, 0.3f)` of rt.cpp 134. -/
noncomputable def background : Vec3 := ⟨0.2, 0.2, 0.3⟩

/-- The source's `calculateColor` (rt.cpp 88-135).  The recursion is on
`depth + 1` under `depth < 2`, so `2 - depth` decreases.  Exact arithmetic, which
cannot overflow; `B32.calculateColor` is the same code in binary32. -/
noncomputable def calculateColor (ray : Ray) (scene : Scene) (lightPos : Vec3) (depth : ℤ) :
    Vec3 :=
  match nearestHit scene ray with
  | (nearestT, some (_, hitSphere)) =>
    let color := localColor ray nearestT hitSphere lightPos
    let color :=
      if h : depth < 2 ∧ hitSphere.reflectivity > 0 then
        let reflectionColor :=
          calculateColor (reflectionRay ray nearestT hitSphere) scene lightPos (depth + 1)
        color * (1 - hitSphere.reflectivity) + reflectionColor * hitSphere.reflectivity
      else color
    let color :=
      if h : depth < 2 ∧ hitSphere.refractiveIndex > 1 then
        if notZeroSentinel (refractionDir ray nearestT hitSphere) then
          let refractionColor :=
            calculateColor (refractionRay ray nearestT hitSphere) scene lightPos (depth + 1)
          color * (1 - hitSphere.reflectivity) + refractionColor * hitSphere.reflectivity
        else color
      else color
    color
  | (_, none) => background
termination_by (2 - depth).toNat
decreasing_by
  all_goals omega

/-- The source's `calculateColor` with a counter: the second component is the
number of invocations of `calculateColor` the call performs, itself included.
The control flow is that of `calculateColor`; `calculateColorCounted_fst` shows
the first component is `calculateColor`. -/
noncomputable def calculateColorCounted (ray : Ray) (scene : Scene) (lightPos : Vec3)
    (depth : ℤ) : Vec3 × ℕ :=
  match nearestHit scene ray with
  | (nearestT, some (_, hitSphere)) =>
    let start : Vec3 × ℕ := (localColor ray nearestT hitSphere lightPos, 1)
    let afterReflection : Vec3 × ℕ :=
      if h : depth < 2 ∧ hitSphere.reflectivity > 0 then
        let reflection :=
          calculateColorCounted (reflectionRay ray nearestT hitSphere) scene lightPos (depth + 1)
        (start.1 * (1 - hitSphere.reflectivity) + reflection.1 * hitSphere.reflectivity,
          start.2 + reflection.2)
      else start
    let afterRefraction : Vec3 × ℕ :=
      if h : depth < 2 ∧ hitSphere.refractiveIndex > 1 then
        if notZeroSentinel (refractionDir ray nearestT hitSphere) then
          let refraction :=
            calculateColorCounted (refractionRay ray nearestT hitSphere) scene lightPos
              (depth + 1)
          (afterReflection.1 * (1 - hitSphere.reflectivity)
              + refraction.1 * hitSphere.reflectivity,
            afterReflection.2 + refraction.2)
        else afterReflection
      else afterReflection
    afterRefraction
  | (_, none) => (background, 1)
termination_by (2 - depth).toNat
decreasing_by
  all_goals omega

/-! ## Concrete inputs

Scenes and rays on the z axis, used to evaluate the definitions above. -/

/-- A unit sphere centred on the z axis at height `cz`. -/
def axisSphere (cz : ℝ) (color : Vec3) (reflectivity refractiveIndex : ℝ) : Sphere :=
  ⟨⟨0, 0, cz⟩, 1, color, reflectivity, refractiveIndex⟩

/-- A red unit sphere at `(0, 0, -5)`, as `main` adds first. -/
def redSphere : Sphere := axisSphere (-5) ⟨1, 0, 0⟩ 0.5 1

/-- A green unit sphere at the same place as `redSphere`. -/
def greenTwin : Sphere := axisSphere (-5) ⟨0, 1, 0⟩ 0.5 1

/-- The scene holding `redSphere` and then `greenTwin`: every ray hits both at
the same distance. -/
def tieScene : Scene := (Scene.addSphere (Scene.addSphere {} redSphere) greenTwin)

/-- The ray from the eye `(0, 0, 0)` down the negative z axis, as
`Ray(Vec3(0, 0, 0), Vec3(0, 0, -1))` builds it (`axisRay_eq_new`). -/
def axisRay : Ray := ⟨⟨0, 0, 0⟩, ⟨0, 0, -1⟩⟩

/-- A unit sphere behind the eye at `(0, 0, 5)`, reflective and opaque. -/
def backSphere : Sphere := axisSphere 5 ⟨0, 0, 1⟩ 0.5 1

/-- A unit sphere at `(0, 0, -5)` with the material of the green sphere of
`main`: reflectivity `0.5` and refractive index `1.5`. -/
def glassSphere : Sphere := axisSphere (-5) ⟨0, 1, 0⟩ 0.5 1.5

/-- The scene holding only `backSphere`: `axisRay` points away from it. -/
def behindScene : Scene := Scene.addSphere {} backSphere

/-- The scene holding `glassSphere` in front of the eye and `backSphere` behind
it. -/
def glassScene : Scene := Scene.addSphere (Scene.addSphere {} glassSphere) backSphere

/-- The light position `Vec3(5, 5, -5)` of `render`. -/
def mainLight : Vec3 := ⟨5, 5, -5⟩

/-- A glass unit sphere behind the eye at `(0, 0, 5)`. -/
def glassBack : Sphere := axisSphere 5 ⟨0, 0, 1⟩ 0.5 1.5

/-- A glass unit sphere at `(0, 0, -10)`, behind `glassSphere` as seen from the
eye. -/
def glassFar : Sphere := axisSphere (-10) ⟨1, 0, 0⟩ 0.5 1.5

/-- Three glass spheres on the z axis: `glassSphere`, `glassBack`, `glassFar`. -/
def glassTriple : Scene :=
  Scene.addSphere (Scene.addSphere (Scene.addSphere {} glassSphere) glassBack) glassFar

/-! ## Rendering (`render`, rt.cpp 137-161, and `main`, rt.cpp 163-173) -/

/-- The camera ray of pixel `(x, y)` (rt.cpp 145-147):
`nx = (float)x / (width - 1) * 2 - 1`, `ny` likewise, and
`Ray(Vec3(0, 0, 0), Vec3(nx, ny, -1))`; `width - 1` is an `int` subtraction.
For `width = 1` or `height = 1` the source divides by zero and the ray is not a
number; the quotient here is `0`, so the definition stands for the source's ray
only when `width > 1` and `height > 1`. -/
noncomputable def cameraRay (width height x y : ℕ) : Ray :=
  let nx := (x : ℝ) / (((width : ℤ) - 1 : ℤ) : ℝ) * 2 - 1
  let ny := (y : ℝ) / (((height : ℤ) - 1 : ℤ) : ℝ) * 2 - 1
  Ray.new ⟨0, 0, 0⟩ ⟨nx, ny, -1⟩

/-- The colour `render` stores for pixel `(x, y)` (rt.cpp 149):
`calculateColor(ray, scene, lightPos)` with the default `depth = 0`. -/
noncomputable def pixelColor (scene : Scene) (width height x y : ℕ) : Vec3 :=
  calculateColor (cameraRay width height x y) scene mainLight 0

/-- The image buffer after the two loops of rt.cpp 142-152: pixel `(x, y)` is
stored at `y * width + x`, so the buffer is the rows `y = 0, 1, ...` one after
the other, each with `x = 0, 1, ...`. -/
noncomputable def renderImage (scene : Scene) (width height : ℕ) : List Vec3 :=
  (List.range height).flatMap fun y =>
    (List.range width).map fun x => pixelColor scene width height x y

/-- The C++ conversion `(int)v` of a float: truncation towards zero. -/
noncomputable def truncToInt (v : ℝ) : ℤ := if 0 ≤ v then ⌊v⌋ else ⌈v⌉

/-- One serialised channel (rt.cpp 157-159): `(int)(std::min(1.0f, c) * 255)`. -/
noncomputable def toChannel (c : ℝ) : ℤ := truncToInt (min 1 c * 255)

/-- One line of the PPM body: the three channels of a pixel. -/
noncomputable def serializePixel (pixel : Vec3) : ℤ × ℤ × ℤ :=
  (toChannel pixel.x, toChannel pixel.y, toChannel pixel.z)

/-- The pixel lines `render` writes after the header, in buffer order. -/
noncomputable def render (scene : Scene) (width height : ℕ) : List (ℤ × ℤ × ℤ) :=
  (renderImage scene width height).map serializePixel

/-- The scene of `main` (rt.cpp 164-167): red, green (refractive index `1.5`)
and blue unit spheres, all of reflectivity `0.5`. -/
def mainScene : Scene :=
  Scene.addSphere
    (Scene.addSphere
      (Scene.addSphere {} ⟨⟨0, 0, -5⟩, 1, ⟨1, 0, 0⟩, 0.5, 1⟩)
      ⟨⟨2, 0, -5⟩, 1, ⟨0, 1, 0⟩, 0.5, 1.5⟩)
    ⟨⟨-2, 0, -5⟩, 1, ⟨0, 0, 1⟩, 0.5, 1⟩

/-- A sphere record with a negative radius, outside the data model (`radius > 0`)
but accepted by the constructor. -/
def negativeSphere : Sphere := ⟨⟨0, 0, -5⟩, -1, ⟨1, 0, 0⟩, 0.5, 1⟩

/-- The green sphere of `main`: centre `(2, 0, -5)`, refractive index `1.5`. -/
def greenSphere : Sphere := ⟨⟨2, 0, -5⟩, 1, ⟨0, 1, 0⟩, 0.5, 1.5⟩

/-- The blue sphere of `main`: centre `(-2, 0, -5)`. -/
def blueSphere : Sphere := ⟨⟨-2, 0, -5⟩, 1, ⟨0, 0, 1⟩, 0.5, 1⟩

/-- The ray from the eye with direction `(1/799, 1/599, -1) * u`: the camera ray
of pixel `(400, 300)` of an 800 x 600 image when `u` is the inverse length of
`(1/799, 1/599, -1)`. -/
noncomputable def centerRay (u : ℝ) : Ray := ⟨⟨0, 0, 0⟩, ⟨1 / 799 * u, 1 / 599 * u, -u⟩⟩

/-- A colour with no negative channel. -/
def Vec3.NonNeg (v : Vec3) : Prop := 0 ≤ v.x ∧ 0 ≤ v.y ∧ 0 ≤ v.z

/-! ## binary32 arithmetic

The `float` of the source is IEEE 754 binary32, rounded to nearest, ties to
even, one rounding per operation.  The definitions above read it as `ℝ`; the
definitions of this section compute it exactly, so that the code can be
evaluated on a concrete input. -/

/-- A binary32 value.  Every finite binary32 number is an integer multiple of
`2^-149`: `finite neg k` is `(-1)^neg * k * 2^-149`, with `k = 0` the two signed
zeros; `inf neg` is the infinity of that sign and `nan` a NaN. -/
inductive F32 where
  | finite (neg : Bool) (k : ℕ)
  | inf (neg : Bool)
  | nan
deriving DecidableEq

namespace F32

/-- The number of binary digits of `n`, counted in at most `fuel` halvings. -/
def bitLenLoop : ℕ → ℕ → ℕ
  | 0, _ => 0
  | fuel + 1, n => if n = 0 then 0 else bitLenLoop fuel (n / 2) + 1

/-- The number of binary digits of `n` (`0` for `n = 0`). -/
def bitLen (n : ℕ) : ℕ := bitLenLoop n n

/-- Integer square root, one binary digit at a time from position `i - 1` down:
`r` keeps `r² ≤ n`. -/
def isqrtLoop (n : ℕ) : ℕ → ℕ → ℕ
  | 0, r => r
  | i + 1, r => isqrtLoop n i (if (r + 2 ^ i) * (r + 2 ^ i) ≤ n then r + 2 ^ i else r)

/-- The integer square root `⌊√n⌋`. -/
def isqrt (n : ℕ) : ℕ := isqrtLoop n (bitLen n / 2 + 1) 0

/-- Rounding to binary32: the value `n / d`, counted in units of `2^-149`, is
rounded to the nearest number with at most 24 significant digits (ties to the
even one); a result of `2^128` or more is the infinity. -/
def roundUnits (neg : Bool) (n d : ℕ) : F32 :=
  let s := bitLen (n / d) - 24
  let q := n / (d * 2 ^ s)
  let r := n % (d * 2 ^ s)
  let q1 := if d * 2 ^ s < 2 * r ∨ (2 * r = d * 2 ^ s ∧ q % 2 = 1) then q + 1 else q
  if 2 ^ 277 ≤ q1 * 2 ^ s then inf neg else finite neg (q1 * 2 ^ s)

/-- The value with the given 32-bit pattern: sign, 8 exponent bits, 23 fraction
bits. -/
def ofBits (b : ℕ) : F32 :=
  let neg := decide (b / 2 ^ 31 % 2 = 1)
  let e := b / 2 ^ 23 % 256
  let m := b % 2 ^ 23
  if e = 255 then (if m = 0 then inf neg else nan)
  else if e = 0 then finite neg m
  else finite neg ((2 ^ 23 + m) * 2 ^ (e - 1))

/-- The conversion of an `int` to `float`. -/
def ofInt : ℤ → F32
  | Int.ofNat n => roundUnits false (n * 2 ^ 149) 1
  | Int.negSucc n => roundUnits true ((n + 1) * 2 ^ 149) 1

/-- The conversion of a non-negative `int` to `float`. -/
def ofNat (n : ℕ) : F32 := roundUnits false (n * 2 ^ 149) 1

/-- A decimal literal such as `0.1f`: the binary32 number nearest to `n / d`. -/
def lit (n d : ℕ) : F32 := roundUnits false (n * 2 ^ 149) d

/-- The constant `std::numeric_limits<float>::max()`, `(2^24 - 1) * 2^104`. -/
def FLT_MAX : F32 := finite false ((2 ^ 24 - 1) * 2 ^ 253)

/-- Unary minus. -/
def neg : F32 → F32
  | finite s k => finite (!s) k
  | inf s => inf (!s)
  | nan => nan

/-- The sum, rounded once. -/
def add : F32 → F32 → F32
  | nan, _ => nan
  | _, nan => nan
  | inf s, inf s' => if s = s' then inf s else nan
  | inf s, finite _ _ => inf s
  | finite _ _, inf s => inf s
  | finite s k, finite s' k' =>
    if s = s' then roundUnits s (k + k') 1
    else if k' < k then roundUnits s (k - k') 1
    else if k < k' then roundUnits s' (k' - k) 1
    else finite false 0

/-- The difference `x - y`, rounded once. -/
def sub (x y : F32) : F32 := add x (neg y)

/-- The product, rounded once. -/
def mul : F32 → F32 → F32
  | nan, _ => nan
  | _, nan => nan
  | inf s, inf s' => inf (xor s s')
  | inf s, finite s' k => if k = 0 then nan else inf (xor s s')
  | finite s k, inf s' => if k = 0 then nan else inf (xor s s')
  | finite s k, finite s' k' => roundUnits (xor s s') (k * k') (2 ^ 149)

/-- The quotient, rounded once. -/
def div : F32 → F32 → F32
  | nan, _ => nan
  | _, nan => nan
  | inf _, inf _ => nan
  | inf s, finite s' _ => inf (xor s s')
  | finite s _, inf s' => finite (xor s s') 0
  | finite s k, finite s' k' =>
    if k' = 0 then (if k = 0 then nan else inf (xor s s'))
    else roundUnits (xor s s') (k * 2 ^ 149) k'

/-- The function `std::sqrt`, correctly rounded. -/
def sqrt : F32 → F32
  | nan => nan
  | inf s => if s then nan else inf false
  | finite s k =>
    if k = 0 then finite s 0
    else if s then nan
    else
      let n := k * 2 ^ 149
      let sh := bitLen (isqrt n) - 24
      let q := isqrt n / 2 ^ sh
      let q1 := if 4 ^ sh * ((2 * q + 1) * (2 * q + 1)) < 4 * n ∨
          (4 * n = 4 ^ sh * ((2 * q + 1) * (2 * q + 1)) ∧ q % 2 = 1) then q + 1 else q
      finite false (q1 * 2 ^ sh)

/-- The comparison `x < y`; false when an operand is a NaN. -/
def lt : F32 → F32 → Bool
  | nan, _ => false
  | _, nan => false
  | inf s, inf s' => s && !s'
  | inf s, finite _ _ => s
  | finite _ _, inf s => !s
  | finite s k, finite s' k' =>
    if s then (if s' then decide (k' < k) else decide (0 < k ∨ 0 < k'))
    else (if s' then false else decide (k < k'))

/-- The comparison `x == y`; false when an operand is a NaN, true for the two
zeros. -/
def eq : F32 → F32 → Bool
  | finite s k, finite s' k' => (k == 0 && k' == 0) || (s == s' && k == k')
  | inf s, inf s' => s == s'
  | _, _ => false

/-- The comparison `x != y`. -/
def ne (x y : F32) : Bool := !eq x y

/-- The function `std::max(a, b)`: `(a < b) ? b : a`. -/
def max (a b : F32) : F32 := if lt a b then b else a

/-- The function `std::min(a, b)`: `(b < a) ? b : a`. -/
def min (a b : F32) : F32 := if lt b a then b else a

/-- The call `std::pow(x, 32)`, which the library evaluates in `double` before
the result is stored in a `float`: modelled as the exact power rounded once. -/
def pow32 : F32 → F32
  | nan => nan
  | inf _ => inf false
  | finite _ k => roundUnits false (k ^ 32) ((2 ^ 149) ^ 31)

/-- The real number a finite binary32 value stands for (`0` for the others). -/
noncomputable def toReal : F32 → ℝ
  | finite neg k => if neg then -((k : ℝ) / 2 ^ 149) else (k : ℝ) / 2 ^ 149
  | inf _ => 0
  | nan => 0

end F32

/-! ## The program in binary32

The definitions of `rt.cpp` once more, operation by operation in the source's
order of evaluation, over `F32`. -/

namespace B32

/-- The class `Vec3` with its three `float` fields. -/
structure Vec3 where
  x : F32
  y : F32
  z : F32
deriving DecidableEq

namespace Vec3

/-- The source's `operator+`. -/
def add (a v : Vec3) : Vec3 := ⟨F32.add a.x v.x, F32.add a.y v.y, F32.add a.z v.z⟩

/-- The source's `operator-`. -/
def sub (a v : Vec3) : Vec3 := ⟨F32.sub a.x v.x, F32.sub a.y v.y, F32.sub a.z v.z⟩

/-- The source's `operator*(float scalar)`. -/
def scale (a : Vec3) (scalar : F32) : Vec3 :=
  ⟨F32.mul a.x scalar, F32.mul a.y scalar, F32.mul a.z scalar⟩

/-- The source's `dot`: `x * v.x + y * v.y + z * v.z`, added left to right. -/
def dot (a v : Vec3) : F32 :=
  F32.add (F32.add (F32.mul a.x v.x) (F32.mul a.y v.y)) (F32.mul a.z v.z)

/-- The source's `normalize`. -/
def normalize (a : Vec3) : Vec3 :=
  let length :=
    F32.sqrt (F32.add (F32.add (F32.mul a.x a.x) (F32.mul a.y a.y)) (F32.mul a.z a.z))
  ⟨F32.div a.x length, F32.div a.y length, F32.div a.z length⟩

/-- The source's `reflect`: `*this - normal * (2 * this->dot(normal))`. -/
def reflect (a normal : Vec3) : Vec3 :=
  sub a (scale normal (F32.mul (F32.ofNat 2) (dot a normal)))

/-- The source's `refract`. -/
def refract (a normal : Vec3) (refractiveIndex : F32) : Vec3 :=
  let cosI := F32.neg (dot normal a)
  let sinT2 := F32.mul (F32.mul refractiveIndex refractiveIndex)
    (F32.sub (F32.ofNat 1) (F32.mul cosI cosI))
  if F32.lt (F32.ofNat 1) sinT2 then ⟨F32.ofNat 0, F32.ofNat 0, F32.ofNat 0⟩
  else
    let cosT := F32.sqrt (F32.sub (F32.ofNat 1) sinT2)
    add (scale a refractiveIndex) (scale normal (F32.sub (F32.mul refractiveIndex cosI) cosT))

/-- The point of real space a vector of finite fields stands for. -/
noncomputable def toReal (v : Vec3) : RayTraced.Vec3 :=
  ⟨F32.toReal v.x, F32.toReal v.y, F32.toReal v.z⟩

end Vec3

/-- The class `Ray`. -/
structure Ray where
  origin : Vec3
  direction : Vec3
deriving DecidableEq

/-- The constructor `Ray(o, d)`: the stored direction is `d.normalize()`. -/
def Ray.new (o d : Vec3) : Ray := ⟨o, d.normalize⟩

/-- The class `Sphere`. -/
structure Sphere where
  center : Vec3
  radius : F32
  color : Vec3
  reflectivity : F32
  refractiveIndex : F32
deriving DecidableEq

/-- The source's `intersect` (rt.cpp 66-76): `some t` for `true` with the
out-parameter `t`, `none` for `false`. -/
def Sphere.intersect (s : Sphere) (ray : Ray) : Option F32 :=
  let oc := ray.origin.sub s.center
  let a := ray.direction.dot ray.direction
  let b := F32.mul (F32.ofNat 2) (oc.dot ray.direction)
  let c := F32.sub (oc.dot oc) (F32.mul s.radius s.radius)
  let discriminant := F32.sub (F32.mul b b) (F32.mul (F32.mul (F32.ofNat 4) a) c)
  if F32.lt discriminant (F32.ofNat 0) then none
  else
    let t := F32.div (F32.sub (F32.neg b) (F32.sqrt discriminant)) (F32.mul (F32.ofNat 2) a)
    if F32.lt (F32.ofNat 0) t then some t else none

/-- The class `Scene`. -/
structure Scene where
  spheres : List Sphere

/-- The loop of rt.cpp 92-98. -/
def scanSpheres (ray : Ray) :
    List Sphere → ℕ → F32 × Option (ℕ × Sphere) → F32 × Option (ℕ × Sphere)
  | [], _, st => st
  | sphere :: rest, i, (nearestT, hitSphere) =>
    match sphere.intersect ray with
    | some t =>
      if F32.lt t nearestT then scanSpheres ray rest (i + 1) (t, some (i, sphere))
      else scanSpheres ray rest (i + 1) (nearestT, hitSphere)
    | none => scanSpheres ray rest (i + 1) (nearestT, hitSphere)

/-- The nearest-hit query of rt.cpp 89-98. -/
def nearestHit (scene : Scene) (ray : Ray) : F32 × Option (ℕ × Sphere) :=
  scanSpheres ray scene.spheres 0 (F32.FLT_MAX, none)

/-- The source's `hitPoint = ray.origin + ray.direction * nearestT`. -/
def hitPoint (ray : Ray) (nearestT : F32) : Vec3 :=
  ray.origin.add (ray.direction.scale nearestT)

/-- The source's `normal = (hitPoint - hitSphere->center).normalize()`. -/
def normalAt (ray : Ray) (nearestT : F32) (hitSphere : Sphere) : Vec3 :=
  ((hitPoint ray nearestT).sub hitSphere.center).normalize

/-- The local colour of rt.cpp 103-114. -/
def localColor (ray : Ray) (nearestT : F32) (hitSphere : Sphere) (lightPos : Vec3) : Vec3 :=
  let normal := normalAt ray nearestT hitSphere
  let lightDir := (lightPos.sub (hitPoint ray nearestT)).normalize
  let ambient := hitSphere.color.scale (F32.lit 1 10)
  let diffuseFactor := F32.max (F32.ofNat 0) (normal.dot lightDir)
  let diffuse := hitSphere.color.scale diffuseFactor
  let viewDir := (ray.origin.sub (hitPoint ray nearestT)).normalize
  let reflectDir := lightDir.reflect normal
  let specularFactor := F32.pow32 (F32.max (F32.ofNat 0) (viewDir.dot reflectDir))
  let specular := (Vec3.mk (F32.ofNat 1) (F32.ofNat 1) (F32.ofNat 1)).scale specularFactor
  (ambient.add diffuse).add specular

/-- The reflection ray of rt.cpp 117-118. -/
def reflectionRay (ray : Ray) (nearestT : F32) (hitSphere : Sphere) : Ray :=
  let normal := normalAt ray nearestT hitSphere
  Ray.new ((hitPoint ray nearestT).add (normal.scale (F32.lit 1 1000)))
    (ray.direction.reflect normal)

/-- The source's `refractionDir` (rt.cpp 123). -/
def refractionDir (ray : Ray) (nearestT : F32) (hitSphere : Sphere) : Vec3 :=
  ray.direction.refract (normalAt ray nearestT hitSphere)
    (F32.div (F32.ofNat 1) hitSphere.refractiveIndex)

/-- The refraction ray of rt.cpp 125. -/
def refractionRay (ray : Ray) (nearestT : F32) (hitSphere : Sphere) : Ray :=
  Ray.new ((hitPoint ray nearestT).sub ((normalAt ray nearestT hitSphere).scale (F32.lit 1 1000)))
    (refractionDir ray nearestT hitSphere)

/-- The body of `calculateColor` (rt.cpp 89-134).  `recurse` is the function the
two recursive calls go to when `depth < 2`, and `none` when `depth ≥ 2`. -/
def shade (recurse : Option (Ray → Vec3)) (ray : Ray) (scene : Scene) (lightPos : Vec3) :
    Vec3 :=
  match nearestHit scene ray with
  | (nearestT, some (_, hitSphere)) =>
    let color := localColor ray nearestT hitSphere lightPos
    let color :=
      match recurse with
      | some calculate =>
        if F32.lt (F32.ofNat 0) hitSphere.reflectivity then
          let reflectionColor := calculate (reflectionRay ray nearestT hitSphere)
          (color.scale (F32.sub (F32.ofNat 1) hitSphere.reflectivity)).add
            (reflectionColor.scale hitSphere.reflectivity)
        else color
      | none => color
    let color :=
      match recurse with
      | some calculate =>
        if F32.lt (F32.ofNat 1) hitSphere.refractiveIndex then
          if F32.ne (refractionDir ray nearestT hitSphere).x (F32.ofNat 0)
              || F32.ne (refractionDir ray nearestT hitSphere).y (F32.ofNat 0)
              || F32.ne (refractionDir ray nearestT hitSphere).z (F32.ofNat 0) then
            let refractionColor := calculate (refractionRay ray nearestT hitSphere)
            (color.scale (F32.sub (F32.ofNat 1) hitSphere.reflectivity)).add
              (refractionColor.scale hitSphere.reflectivity)
          else color
        else color
      | none => color
    color
  | (_, none) => ⟨F32.lit 2 10, F32.lit 2 10, F32.lit 3 10⟩

/-- The source's `calculateColor` with `bounces = 2 - depth` levels of recursion
left. -/
def calculateColorAux : ℕ → Ray → Scene → Vec3 → Vec3
  | 0, ray, scene, lightPos => shade none ray scene lightPos
  | bounces + 1, ray, scene, lightPos =>
    shade (some fun r => calculateColorAux bounces r scene lightPos) ray scene lightPos

/-- The source's `calculateColor` (rt.cpp 88-135). -/
def calculateColor (ray : Ray) (scene : Scene) (lightPos : Vec3) (depth : ℤ) : Vec3 :=
  calculateColorAux (2 - depth).toNat ray scene lightPos

/-- A vector of three `int` literals, as in `Vec3(0, 0, -5)`. -/
def vec (x y z : ℤ) : Vec3 := ⟨F32.ofInt x, F32.ofInt y, F32.ofInt z⟩

/-- The unit sphere at the origin, red, reflectivity `0.5f`. -/
def unitSphere : Sphere := ⟨vec 0 0 0, F32.ofNat 1, vec 1 0 0, F32.lit 1 2, F32.ofNat 1⟩

/-- A point at distance `0.9999999996` from the origin, given by its bits. -/
def nearSurface : Vec3 := ⟨F32.ofBits 0xbf0e8d66, F32.ofBits 0x3f495446, F32.ofBits 0xbe88d761⟩

/-- The vector `-nearSurface`. -/
def towardsCenter : Vec3 :=
  ⟨F32.ofBits 0x3f0e8d66, F32.ofBits 0xbf495446, F32.ofBits 0x3e88d761⟩

/-- A unit sphere at `(0, 0, -10000)`. -/
def farSphere : Sphere := ⟨vec 0 0 (-10000), F32.ofNat 1, vec 1 0 0, F32.lit 1 2, F32.ofNat 1⟩

/-- The ray `Ray(Vec3(2, 0, 0), Vec3(0, 0, -1))`. -/
def offsetRay : Ray := Ray.new (vec 2 0 0) (vec 0 0 (-1))

/-- A unit sphere at `(0, 0, -5)` with base colour `(FLT_MAX, 0, 0)` and
reflectivity `1`. -/
def brightSphere : Sphere :=
  ⟨vec 0 0 (-5), F32.ofNat 1, ⟨F32.FLT_MAX, F32.ofNat 0, F32.ofNat 0⟩, F32.ofNat 1, F32.ofNat 1⟩

/-- The ray `Ray(Vec3(0, 0, 0), Vec3(0, 0, -1))`. -/
def axisRay : Ray := Ray.new (vec 0 0 0) (vec 0 0 (-1))

/-- A green glass unit sphere at `(0, 0, -1000)`: reflectivity `0.5f`,
refractive index `1.5f`. -/
def distantGlass : Sphere :=
  ⟨vec 0 0 (-1000), F32.ofNat 1, vec 0 1 0, F32.lit 1 2, F32.lit 3 2⟩

/-- The ray `Ray(Vec3(0, 0, 0), Vec3(0.0001f, 0, -1))`. -/
def slantedRay : Ray := Ray.new (vec 0 0 0) ⟨F32.lit 1 10000, F32.ofNat 0, F32.ofInt (-1)⟩

end B32

/-! ## Component lemmas -/

namespace Vec3

@[simp] theorem add_x (a b : Vec3) : (a + b).x = a.x + b.x := rfl
@[simp] theorem add_y (a b : Vec3) : (a + b).y = a.y + b.y := rfl
@[simp] theorem add_z (a b : Vec3) : (a + b).z = a.z + b.z := rfl
@[simp] theorem sub_x (a b : Vec3) : (a - b).x = a.x - b.x := rfl
@[simp] theorem sub_y (a b : Vec3) : (a - b).y = a.y - b.y := rfl
@[simp] theorem sub_z (a b : Vec3) : (a - b).z = a.z - b.z := rfl
@[simp] theorem scale_x (a : Vec3) (k : ℝ) : (a * k).x = a.x * k := rfl
@[simp] theorem scale_y (a : Vec3) (k : ℝ) : (a * k).y = a.y * k := rfl
@[simp] theorem scale_z (a : Vec3) (k : ℝ) : (a * k).z = a.z * k := rfl

theorem dot_self_nonneg (a : Vec3) : 0 ≤ a.dot a := by
  unfold dot
  nlinarith [mul_self_nonneg a.x, mul_self_nonneg a.y, mul_self_nonneg a.z]

theorem dot_self_eq_zero {a : Vec3} (h : a.dot a = 0) : a.x = 0 ∧ a.y = 0 ∧ a.z = 0 := by
  unfold dot at h
  refine ⟨?_, ?_, ?_⟩ <;> nlinarith [mul_self_nonneg a.x, mul_self_nonneg a.y, mul_self_nonneg a.z]

theorem dot_self_pos {a : Vec3} (h : a.x ≠ 0 ∨ a.y ≠ 0 ∨ a.z ≠ 0) : 0 < a.dot a := by
  rcases lt_or_eq_of_le (dot_self_nonneg a) with h0 | h0
  · exact h0
  · obtain ⟨hx, hy, hz⟩ := dot_self_eq_zero h0.symm
    rcases h with h | h | h
    · exact absurd hx h
    · exact absurd hy h
    · exact absurd hz h

theorem length_eq (a : Vec3) : a.length = Real.sqrt (a.dot a) := rfl

end Vec3

/-! ## Evaluating `intersect` -/

namespace Sphere

theorem intersect_eq_some_of {s : Sphere} {ray : Ray} (hd : ¬ discriminant s ray < 0)
    (ht : nearRoot s ray > 0) : s.intersect ray = some (nearRoot s ray) := by
  simp [intersect, hd, ht]

theorem intersect_eq_none_of_disc {s : Sphere} {ray : Ray} (hd : discriminant s ray < 0) :
    s.intersect ray = none := by
  simp [intersect, hd]

theorem intersect_eq_none_of_root {s : Sphere} {ray : Ray} (ht : nearRoot s ray ≤ 0) :
    s.intersect ray = none := by
  unfold intersect
  split
  · rfl
  · simp [not_lt.mpr ht]

theorem intersect_eq_some_iff {s : Sphere} {ray : Ray} {t : ℝ} :
    s.intersect ray = some t ↔
      (0 ≤ discriminant s ray ∧ 0 < nearRoot s ray ∧ t = nearRoot s ray) := by
  by_cases hd : discriminant s ray < 0
  · rw [intersect_eq_none_of_disc hd]
    constructor
    · intro h
      cases h
    · rintro ⟨h0, -, -⟩
      exact absurd hd (not_lt.mpr h0)
  · by_cases ht : nearRoot s ray > 0
    · rw [intersect_eq_some_of hd ht]
      constructor
      · intro h
        cases h
        exact ⟨not_lt.mp hd, ht, rfl⟩
      · rintro ⟨-, -, h⟩
        rw [h]
    · rw [intersect_eq_none_of_root (not_lt.mp ht)]
      constructor
      · intro h
        cases h
      · rintro ⟨-, h, -⟩
        exact absurd h ht

/-- The near root when the discriminant is the square of a known `d ≥ 0`. -/
theorem nearRoot_of_disc_sq {s : Sphere} {ray : Ray} {d : ℝ} (hd : 0 ≤ d)
    (hD : discriminant s ray = d * d) :
    nearRoot s ray = (-(quadB s ray) - d) / (2 * quadA ray) := by
  unfold nearRoot
  rw [hD, Real.sqrt_mul_self hd]

end Sphere

/-! ## The nearest-hit scan -/

/-- What the loop of rt.cpp 92-98 computes from any start state: the final
`nearestT` is a lower bound of the start bound and of every reported hit
distance, and either the state is unchanged (no hit below the start bound) or
the pointer is the first sphere whose hit attains the final `nearestT`. -/
theorem scanSpheres_spec (ray : Ray) (l : List Sphere) :
    ∀ (i : ℕ) (T0 : ℝ) (sel0 : Option (ℕ × Sphere)),
      (scanSpheres ray l i (T0, sel0)).1 ≤ T0 ∧
      (∀ (j : ℕ) (s' : Sphere) (t' : ℝ), l[j]? = some s' → s'.intersect ray = some t' →
        (scanSpheres ray l i (T0, sel0)).1 ≤ t') ∧
      (scanSpheres ray l i (T0, sel0) = (T0, sel0) ∨
        ∃ k s, l[k]? = some s ∧
          (scanSpheres ray l i (T0, sel0)).2 = some (i + k, s) ∧
          s.intersect ray = some (scanSpheres ray l i (T0, sel0)).1 ∧
          (scanSpheres ray l i (T0, sel0)).1 < T0 ∧
          ∀ (j : ℕ) (s' : Sphere) (t' : ℝ), j < k → l[j]? = some s' →
            s'.intersect ray = some t' → (scanSpheres ray l i (T0, sel0)).1 < t') := by
  induction l with
  | nil =>
    intro i T0 sel0
    refine ⟨le_refl _, ?_, Or.inl rfl⟩
    intro j s' t' hj
    simp at hj
  | cons sphere rest ih =>
    intro i T0 sel0
    cases hs : sphere.intersect ray with
    | none =>
      have hstep : scanSpheres ray (sphere :: rest) i (T0, sel0)
          = scanSpheres ray rest (i + 1) (T0, sel0) := by
        simp [scanSpheres, hs]
      rw [hstep]
      obtain ⟨h1, h2, h3⟩ := ih (i + 1) T0 sel0
      refine ⟨h1, ?_, ?_⟩
      · intro j s' t' hj ht
        cases j with
        | zero =>
          simp at hj
          subst hj
          rw [hs] at ht
          cases ht
        | succ j => exact h2 j s' t' (by simpa using hj) ht
      · rcases h3 with h3 | ⟨k, s, hk, hsel, hhit, hlt, hfirst⟩
        · exact Or.inl h3
        · refine Or.inr ⟨k + 1, s, by simpa using hk, ?_, hhit, hlt, ?_⟩
          · rw [hsel]
            congr 2
            omega
          · intro j s' t' hjk hj ht
            cases j with
            | zero =>
              simp at hj
              subst hj
              rw [hs] at ht
              cases ht
            | succ j => exact hfirst j s' t' (by omega) (by simpa using hj) ht
    | some t =>
      by_cases hlt0 : t < T0
      · have hstep : scanSpheres ray (sphere :: rest) i (T0, sel0)
            = scanSpheres ray rest (i + 1) (t, some (i, sphere)) := by
          simp [scanSpheres, hs, hlt0]
        rw [hstep]
        obtain ⟨h1, h2, h3⟩ := ih (i + 1) t (some (i, sphere))
        refine ⟨le_trans h1 (le_of_lt hlt0), ?_, ?_⟩
        · intro j s' t' hj ht
          cases j with
          | zero =>
            simp at hj
            subst hj
            rw [hs] at ht
            cases ht
            exact h1
          | succ j => exact h2 j s' t' (by simpa using hj) ht
        · right
          rcases h3 with h3 | ⟨k, s, hk, hsel, hhit, hlt, hfirst⟩
          · refine ⟨0, sphere, by simp, ?_, ?_, ?_, ?_⟩
            · rw [h3]
              rfl
            · rw [h3]
              exact hs
            · rw [h3]
              exact hlt0
            · intro j s' t' hjk
              omega
          · refine ⟨k + 1, s, by simpa using hk, ?_, hhit, lt_trans hlt hlt0, ?_⟩
            · rw [hsel]
              congr 2
              omega
            · intro j s' t' hjk hj ht
              cases j with
              | zero =>
                simp at hj
                subst hj
                rw [hs] at ht
                cases ht
                exact hlt
              | succ j => exact hfirst j s' t' (by omega) (by simpa using hj) ht
      · have hstep : scanSpheres ray (sphere :: rest) i (T0, sel0)
            = scanSpheres ray rest (i + 1) (T0, sel0) := by
          simp [scanSpheres, hs, hlt0]
        rw [hstep]
        obtain ⟨h1, h2, h3⟩ := ih (i + 1) T0 sel0
        have hle : T0 ≤ t := not_lt.mp hlt0
        refine ⟨h1, ?_, ?_⟩
        · intro j s' t' hj ht
          cases j with
          | zero =>
            simp at hj
            subst hj
            rw [hs] at ht
            cases ht
            exact le_trans h1 hle
          | succ j => exact h2 j s' t' (by simpa using hj) ht
        · rcases h3 with h3 | ⟨k, s, hk, hsel, hhit, hlt, hfirst⟩
          · exact Or.inl h3
          · refine Or.inr ⟨k + 1, s, by simpa using hk, ?_, hhit, hlt, ?_⟩
            · rw [hsel]
              congr 2
              omega
            · intro j s' t' hjk hj ht
              cases j with
              | zero =>
                simp at hj
                subst hj
                rw [hs] at ht
                cases ht
                exact lt_of_lt_of_le hlt hle
              | succ j => exact hfirst j s' t' (by omega) (by simpa using hj) ht

/-! ## C1: nearest hit -/

theorem redSphere_intersect_axisRay : redSphere.intersect axisRay = some 4 := by
  have hD : Sphere.discriminant redSphere axisRay = 2 * 2 := by
    simp [Sphere.discriminant, Sphere.quadA, Sphere.quadB, Sphere.quadC, Vec3.dot, redSphere,
      axisSphere, axisRay]
    norm_num
  have hr : Sphere.nearRoot redSphere axisRay = 4 := by
    rw [Sphere.nearRoot_of_disc_sq (by norm_num) hD]
    simp [Sphere.quadA, Sphere.quadB, Vec3.dot, redSphere, axisSphere, axisRay]
    norm_num
  have h : redSphere.intersect axisRay = some (Sphere.nearRoot redSphere axisRay) :=
    Sphere.intersect_eq_some_of (by rw [hD]; norm_num) (by rw [hr]; norm_num)
  rw [hr] at h
  exact h

theorem greenTwin_intersect_axisRay : greenTwin.intersect axisRay = some 4 :=
  redSphere_intersect_axisRay

/-- C1.  For every scene and ray, the nearest-hit query of `calculateColor`
(rt.cpp 89-98) behaves as follows.  When a sphere is selected, it is a sphere of
the scene whose `intersect` reports a hit at the final `nearestT`; that distance
is the minimum over all spheres that report a hit, and every sphere reporting
the same distance sits at the same or a later position (the earliest wins).
When no sphere reports a hit, none is selected.  A sphere is selected as soon as
some sphere reports a hit below the loop's start bound `FLT_MAX`. -/
theorem nearestHit_first_minimum (scene : Scene) (ray : Ray) :
    (∀ (i : ℕ) (s : Sphere), (nearestHit scene ray).2 = some (i, s) →
      scene.spheres[i]? = some s ∧ s.intersect ray = some (nearestHit scene ray).1 ∧
      ∀ (j : ℕ) (s' : Sphere) (t' : ℝ), scene.spheres[j]? = some s' →
        s'.intersect ray = some t' →
          (nearestHit scene ray).1 ≤ t' ∧ (t' = (nearestHit scene ray).1 → i ≤ j)) ∧
    ((∀ s ∈ scene.spheres, s.intersect ray = none) → (nearestHit scene ray).2 = none) ∧
    ((∃ s ∈ scene.spheres, ∃ t, s.intersect ray = some t ∧ t < FLT_MAX) →
      ∃ (i : ℕ) (s : Sphere), (nearestHit scene ray).2 = some (i, s)) := by
  obtain ⟨h1, h2, h3⟩ := scanSpheres_spec ray scene.spheres 0 FLT_MAX none
  refine ⟨?_, ?_, ?_⟩
  · intro i s hsel
    rcases h3 with h3 | ⟨k, s0, hk, hsel0, hhit, -, hfirst⟩
    · unfold nearestHit at hsel
      rw [h3] at hsel
      cases hsel
    · unfold nearestHit at hsel ⊢
      rw [hsel0] at hsel
      simp only [zero_add, Option.some.injEq, Prod.mk.injEq] at hsel
      obtain ⟨rfl, rfl⟩ := hsel
      refine ⟨hk, hhit, ?_⟩
      intro j s' t' hj ht
      refine ⟨h2 j s' t' hj ht, ?_⟩
      intro heq
      by_contra hlt
      have := hfirst j s' t' (not_le.mp hlt) hj ht
      rw [heq] at this
      exact lt_irrefl _ this
  · intro hnone
    rcases h3 with h3 | ⟨k, s0, hk, -, hhit, -, -⟩
    · unfold nearestHit
      rw [h3]
    · have hmem : s0 ∈ scene.spheres := List.getElem?_mem hk
      rw [hnone s0 hmem] at hhit
      cases hhit
  · rintro ⟨s, hs, t, ht, hlt⟩
    rcases h3 with h3 | ⟨k, s0, -, hsel0, -, -, -⟩
    · exfalso
      obtain ⟨j, hj⟩ := List.getElem?_of_mem hs
      have hle := h2 j s t hj ht
      rw [h3] at hle
      exact absurd hlt (not_lt.mpr hle)
    · exact ⟨0 + k, s0, hsel0⟩

/-- C1 at `tieScene`: both spheres are hit at distance 4 by `axisRay`, and the
query selects position 0, the red sphere inserted first. -/
theorem nearestHit_first_minimum_witness :
    (nearestHit tieScene axisRay).2 = some (0, redSphere) := by
  obtain ⟨hsel, -, hex⟩ := nearestHit_first_minimum tieScene axisRay
  have h0 : tieScene.spheres[0]? = some redSphere := rfl
  obtain ⟨i, s, his⟩ := hex ⟨redSphere, by simp [tieScene, Scene.addSphere], 4,
    redSphere_intersect_axisRay, by unfold FLT_MAX; norm_num⟩
  obtain ⟨hi, hhit, hmin⟩ := hsel i s his
  have hT : (nearestHit tieScene axisRay).1 = 4 := by
    have hs4 : s.intersect axisRay = some 4 := by
      have hmem : s ∈ tieScene.spheres := List.getElem?_mem hi
      simp [tieScene, Scene.addSphere] at hmem
      rcases hmem with rfl | rfl
      · exact redSphere_intersect_axisRay
      · exact greenTwin_intersect_axisRay
    rw [hs4] at hhit
    exact (Option.some.inj hhit).symm
  have hi0 : i = 0 := by
    have := (hmin 0 redSphere 4 h0 redSphere_intersect_axisRay).2 hT.symm
    omega
  subst hi0
  rw [h0] at hi
  cases hi
  exact his

/-! ## C2, C3: the near root of the sphere quadratic -/

theorem Sphere.quadA_pos {ray : Ray}
    (hdir : ray.direction.x ≠ 0 ∨ ray.direction.y ≠ 0 ∨ ray.direction.z ≠ 0) :
    0 < Sphere.quadA ray :=
  Vec3.dot_self_pos hdir

/-- The sphere equation along the ray is the quadratic `a t² + b t + c`. -/
theorem Sphere.surface_eq_quadratic (s : Sphere) (ray : Ray) (t : ℝ) :
    (hitPoint ray t - s.center).dot (hitPoint ray t - s.center) - s.radius * s.radius
      = Sphere.quadA ray * t * t + Sphere.quadB s ray * t + Sphere.quadC s ray := by
  simp only [hitPoint, Sphere.quadA, Sphere.quadB, Sphere.quadC, Vec3.dot, Vec3.add_x,
    Vec3.add_y, Vec3.add_z, Vec3.sub_x, Vec3.sub_y, Vec3.sub_z, Vec3.scale_x, Vec3.scale_y,
    Vec3.scale_z]
  ring

/-- C2.  For every sphere and every ray of non-zero direction, with
`oc = origin - center`, `a = dot(dir, dir)`, `b = 2 * dot(oc, dir)` and
`c = dot(oc, oc) - radius²`: `a` is positive; `intersect` reports a hit exactly
when `b² - 4ac ≥ 0` and `(-b - sqrt(b² - 4ac)) / (2a) > 0`; the reported `t` is
that near root; and a near root that is zero or negative is reported as no
hit. -/
theorem intersect_iff_near_root_pos (s : Sphere) (ray : Ray)
    (hdir : ray.direction.x ≠ 0 ∨ ray.direction.y ≠ 0 ∨ ray.direction.z ≠ 0) :
    let oc := ray.origin - s.center
    let a := ray.direction.dot ray.direction
    let b := 2 * oc.dot ray.direction
    let c := oc.dot oc - s.radius ^ 2
    0 < a ∧
    ((∃ t, s.intersect ray = some t) ↔
      (b ^ 2 - 4 * a * c ≥ 0 ∧ (-b - Real.sqrt (b ^ 2 - 4 * a * c)) / (2 * a) > 0)) ∧
    (∀ t, s.intersect ray = some t → t = (-b - Real.sqrt (b ^ 2 - 4 * a * c)) / (2 * a)) ∧
    ((-b - Real.sqrt (b ^ 2 - 4 * a * c)) / (2 * a) ≤ 0 → s.intersect ray = none) := by
  intro oc a b c
  have hD : Sphere.discriminant s ray = b ^ 2 - 4 * a * c := by
    simp only [Sphere.discriminant, Sphere.quadA, Sphere.quadB, Sphere.quadC, oc, a, b, c]
    ring
  have hR : Sphere.nearRoot s ray = (-b - Real.sqrt (b ^ 2 - 4 * a * c)) / (2 * a) := by
    unfold Sphere.nearRoot
    rw [hD]
    rfl
  refine ⟨Sphere.quadA_pos hdir, ?_, ?_, ?_⟩
  · rw [← hR, ← hD]
    constructor
    · rintro ⟨t, ht⟩
      obtain ⟨h0, h1, -⟩ := Sphere.intersect_eq_some_iff.mp ht
      exact ⟨h0, h1⟩
    · rintro ⟨h0, h1⟩
      exact ⟨_, Sphere.intersect_eq_some_iff.mpr ⟨h0, h1, rfl⟩⟩
  · intro t ht
    rw [← hR]
    exact (Sphere.intersect_eq_some_iff.mp ht).2.2
  · intro hle
    rw [← hR] at hle
    exact Sphere.intersect_eq_none_of_root hle

/-- C2 at `redSphere` and `axisRay` (direction `(0, 0, -1)`): the hit distance 4
is the near root of the quadratic with `a = 1`, `b = -10`, `c = 24`. -/
theorem intersect_iff_near_root_pos_witness :
    (axisRay.direction.x ≠ 0 ∨ axisRay.direction.y ≠ 0 ∨ axisRay.direction.z ≠ 0) ∧
    (4 : ℝ) = (-(2 * (axisRay.origin - redSphere.center).dot axisRay.direction)
      - Real.sqrt ((2 * (axisRay.origin - redSphere.center).dot axisRay.direction) ^ 2
          - 4 * axisRay.direction.dot axisRay.direction
            * ((axisRay.origin - redSphere.center).dot (axisRay.origin - redSphere.center)
                - redSphere.radius ^ 2)))
      / (2 * axisRay.direction.dot axisRay.direction) :=
  ⟨by simp [axisRay],
    (intersect_iff_near_root_pos redSphere axisRay (by simp [axisRay])).2.2.1 4
      redSphere_intersect_axisRay⟩

/-- C3.  Whenever `intersect` reports a hit at distance `t` for a ray of non-zero
direction, the point `origin + direction * t` lies on the sphere,
`|origin + t·direction - center|² = radius²`, and no smaller parameter `t'`
puts the ray on the sphere: `t` is the least real solution. -/
theorem intersect_least_solution (s : Sphere) (ray : Ray) (t : ℝ)
    (hdir : ray.direction.x ≠ 0 ∨ ray.direction.y ≠ 0 ∨ ray.direction.z ≠ 0)
    (hhit : s.intersect ray = some t) :
    (hitPoint ray t - s.center).dot (hitPoint ray t - s.center) = s.radius ^ 2 ∧
    ∀ t' : ℝ, (hitPoint ray t' - s.center).dot (hitPoint ray t' - s.center) = s.radius ^ 2 →
      t ≤ t' := by
  obtain ⟨hD0, -, ht⟩ := Sphere.intersect_eq_some_iff.mp hhit
  have ha : 0 < Sphere.quadA ray := Sphere.quadA_pos hdir
  have hsq : Real.sqrt (Sphere.discriminant s ray) * Real.sqrt (Sphere.discriminant s ray)
      = Sphere.discriminant s ray := Real.mul_self_sqrt hD0
  have hr0 : 0 ≤ Real.sqrt (Sphere.discriminant s ray) := Real.sqrt_nonneg _
  have hlin : 2 * Sphere.quadA ray * t + Sphere.quadB s ray
      = -Real.sqrt (Sphere.discriminant s ray) := by
    rw [ht]
    unfold Sphere.nearRoot
    field_simp
    ring
  have hDdef : Sphere.discriminant s ray
      = Sphere.quadB s ray * Sphere.quadB s ray - 4 * Sphere.quadA ray * Sphere.quadC s ray :=
    rfl
  constructor
  · have hq := Sphere.surface_eq_quadratic s ray t
    have hzero : Sphere.quadA ray * (Sphere.quadA ray * t * t + Sphere.quadB s ray * t
        + Sphere.quadC s ray) = 0 := by
      have h2 : (2 * Sphere.quadA ray * t + Sphere.quadB s ray) ^ 2
          = Sphere.discriminant s ray := by
        rw [hlin]
        nlinarith [hsq]
      rw [hDdef] at h2
      nlinarith [h2]
    have hz : Sphere.quadA ray * t * t + Sphere.quadB s ray * t + Sphere.quadC s ray = 0 := by
      rcases mul_eq_zero.mp hzero with h | h
      · exact absurd h (ne_of_gt ha)
      · exact h
    rw [hz] at hq
    nlinarith [hq]
  · intro t' hsol
    have hq := Sphere.surface_eq_quadratic s ray t'
    have hz : Sphere.quadA ray * t' * t' + Sphere.quadB s ray * t' + Sphere.quadC s ray = 0 := by
      rw [← hq, hsol]
      ring
    have h2 : (2 * Sphere.quadA ray * t' + Sphere.quadB s ray) ^ 2
        = Real.sqrt (Sphere.discriminant s ray) ^ 2 := by
      rw [sq (Real.sqrt _), hsq, hDdef]
      nlinarith [hz]
    have hge : -Real.sqrt (Sphere.discriminant s ray)
        ≤ 2 * Sphere.quadA ray * t' + Sphere.quadB s ray := by
      exact (abs_le_of_sq_le_sq' (le_of_eq h2) hr0).1
    rw [← hlin] at hge
    nlinarith [hge, ha]

/-- C3 at `redSphere` and `axisRay`: the reported hit `t = 4` is on the sphere
and no smaller parameter is. -/
theorem intersect_least_solution_witness :
    (hitPoint axisRay 4 - redSphere.center).dot (hitPoint axisRay 4 - redSphere.center)
      = redSphere.radius ^ 2 ∧
    ∀ t' : ℝ, (hitPoint axisRay t' - redSphere.center).dot
        (hitPoint axisRay t' - redSphere.center) = redSphere.radius ^ 2 → 4 ≤ t' :=
  intersect_least_solution redSphere axisRay 4 (by simp [axisRay]) redSphere_intersect_axisRay

/-! ## Unfolding `calculateColor` -/

theorem calculateColor_miss (ray : Ray) (scene : Scene) (lightPos : Vec3) (depth : ℤ)
    (h : (nearestHit scene ray).2 = none) :
    calculateColor ray scene lightPos depth = background := by
  rw [calculateColor]
  split
  · rename_i T i s heq
    rw [heq] at h
    cases h
  · rfl

theorem calculateColor_hit (ray : Ray) (scene : Scene) (lightPos : Vec3) (depth : ℤ)
    (T : ℝ) (i : ℕ) (s : Sphere) (h : nearestHit scene ray = (T, some (i, s))) :
    calculateColor ray scene lightPos depth =
      (if depth < 2 ∧ s.refractiveIndex > 1 then
        if notZeroSentinel (refractionDir ray T s) then
          (if depth < 2 ∧ s.reflectivity > 0 then
            localColor ray T s lightPos * (1 - s.reflectivity)
              + calculateColor (reflectionRay ray T s) scene lightPos (depth + 1)
                * s.reflectivity
          else localColor ray T s lightPos) * (1 - s.reflectivity)
            + calculateColor (refractionRay ray T s) scene lightPos (depth + 1)
              * s.reflectivity
        else
          (if depth < 2 ∧ s.reflectivity > 0 then
            localColor ray T s lightPos * (1 - s.reflectivity)
              + calculateColor (reflectionRay ray T s) scene lightPos (depth + 1)
                * s.reflectivity
          else localColor ray T s lightPos)
      else
        (if depth < 2 ∧ s.reflectivity > 0 then
          localColor ray T s lightPos * (1 - s.reflectivity)
            + calculateColor (reflectionRay ray T s) scene lightPos (depth + 1)
              * s.reflectivity
        else localColor ray T s lightPos)) := by
  rw [calculateColor]
  split
  · rename_i T' i' s' heq
    rw [h] at heq
    cases heq
    simp only [dite_eq_ite]
  · rename_i T' heq
    rw [h] at heq
    cases heq

theorem calculateColorCounted_miss (ray : Ray) (scene : Scene) (lightPos : Vec3) (depth : ℤ)
    (h : (nearestHit scene ray).2 = none) :
    calculateColorCounted ray scene lightPos depth = (background, 1) := by
  rw [calculateColorCounted]
  split
  · rename_i T i s heq
    rw [heq] at h
    cases h
  · rfl

theorem calculateColorCounted_hit (ray : Ray) (scene : Scene) (lightPos : Vec3) (depth : ℤ)
    (T : ℝ) (i : ℕ) (s : Sphere) (h : nearestHit scene ray = (T, some (i, s))) :
    calculateColorCounted ray scene lightPos depth =
      (let afterReflection : Vec3 × ℕ :=
        if depth < 2 ∧ s.reflectivity > 0 then
          (localColor ray T s lightPos * (1 - s.reflectivity)
            + (calculateColorCounted (reflectionRay ray T s) scene lightPos (depth + 1)).1
              * s.reflectivity,
            1 + (calculateColorCounted (reflectionRay ray T s) scene lightPos (depth + 1)).2)
        else (localColor ray T s lightPos, 1)
      if depth < 2 ∧ s.refractiveIndex > 1 then
        if notZeroSentinel (refractionDir ray T s) then
          (afterReflection.1 * (1 - s.reflectivity)
            + (calculateColorCounted (refractionRay ray T s) scene lightPos (depth + 1)).1
              * s.reflectivity,
            afterReflection.2
              + (calculateColorCounted (refractionRay ray T s) scene lightPos (depth + 1)).2)
        else afterReflection
      else afterReflection) := by
  rw [calculateColorCounted]
  split
  · rename_i T' i' s' heq
    rw [h] at heq
    cases heq
    simp only [dite_eq_ite]
  · rename_i T' heq
    rw [h] at heq
    cases heq

/-- Induction along the recursion of `calculateColor`: a property that holds at
every depth `≥ 2` and passes from `depth + 1` to `depth < 2` holds at every
depth. -/
theorem depth_induction (P : ℤ → Prop) (hbase : ∀ d : ℤ, 2 ≤ d → P d)
    (hstep : ∀ d : ℤ, d < 2 → P (d + 1) → P d) : ∀ d : ℤ, P d := by
  have key : ∀ (n : ℕ) (d : ℤ), (2 - d).toNat = n → P d := by
    intro n
    induction n with
    | zero =>
      intro d hd
      exact hbase d (by omega)
    | succ n ih =>
      intro d hd
      exact hstep d (by omega) (ih (d + 1) (by omega))
  intro d
  exact key _ d rfl

/-- The counter does not change the colour. -/
theorem calculateColorCounted_fst (scene : Scene) (lightPos : Vec3) :
    ∀ (depth : ℤ) (ray : Ray),
      (calculateColorCounted ray scene lightPos depth).1
        = calculateColor ray scene lightPos depth := by
  apply depth_induction
  · intro d hd ray
    rcases hsel : nearestHit scene ray with ⟨T, _ | ⟨i, s⟩⟩
    · rw [calculateColorCounted_miss _ _ _ _ (by rw [hsel]),
        calculateColor_miss _ _ _ _ (by rw [hsel])]
    · rw [calculateColorCounted_hit _ _ _ _ T i s hsel, calculateColor_hit _ _ _ _ T i s hsel]
      have hnot : ¬ d < 2 := by omega
      simp [hnot]
  · intro d hd ih ray
    rcases hsel : nearestHit scene ray with ⟨T, _ | ⟨i, s⟩⟩
    · rw [calculateColorCounted_miss _ _ _ _ (by rw [hsel]),
        calculateColor_miss _ _ _ _ (by rw [hsel])]
    · rw [calculateColorCounted_hit _ _ _ _ T i s hsel, calculateColor_hit _ _ _ _ T i s hsel]
      simp only [ih]
      split_ifs <;> rfl

/-- At depth `≥ 2` a call makes no recursive call: it is one evaluation. -/
theorem evals_depth_ge_two (scene : Scene) (lightPos : Vec3) (depth : ℤ) (hd : 2 ≤ depth)
    (ray : Ray) : (calculateColorCounted ray scene lightPos depth).2 = 1 := by
  rcases hsel : nearestHit scene ray with ⟨T, _ | ⟨i, s⟩⟩
  · rw [calculateColorCounted_miss _ _ _ _ (by rw [hsel])]
  · rw [calculateColorCounted_hit _ _ _ _ T i s hsel]
    have hnot : ¬ depth < 2 := by omega
    simp [hnot]

/-- Every call is at least one evaluation. -/
theorem evals_pos (scene : Scene) (lightPos : Vec3) (depth : ℤ) (ray : Ray) :
    1 ≤ (calculateColorCounted ray scene lightPos depth).2 := by
  rcases hsel : nearestHit scene ray with ⟨T, _ | ⟨i, s⟩⟩
  · rw [calculateColorCounted_miss _ _ _ _ (by rw [hsel])]
  · rw [calculateColorCounted_hit _ _ _ _ T i s hsel]
    dsimp only
    split_ifs <;> simp only [] <;> omega

/-- The evaluations of a call that hits: one, plus those of the reflection call
when it is made, plus those of the refraction call when it is made. -/
theorem evals_hit (ray : Ray) (scene : Scene) (lightPos : Vec3) (depth : ℤ)
    (T : ℝ) (i : ℕ) (s : Sphere) (h : nearestHit scene ray = (T, some (i, s))) :
    (calculateColorCounted ray scene lightPos depth).2 =
      1 + (if depth < 2 ∧ s.reflectivity > 0 then
            (calculateColorCounted (reflectionRay ray T s) scene lightPos (depth + 1)).2
          else 0)
        + (if (depth < 2 ∧ s.refractiveIndex > 1) ∧ notZeroSentinel (refractionDir ray T s)
            then (calculateColorCounted (refractionRay ray T s) scene lightPos (depth + 1)).2
          else 0) := by
  rw [calculateColorCounted_hit _ _ _ _ T i s h]
  dsimp only
  split_ifs <;> simp_all

/-! ## Evaluating the scan on the z axis -/

theorem scanSpheres_cons_none {ray : Ray} {sphere : Sphere} (rest : List Sphere) (i : ℕ)
    (st : ℝ × Option (ℕ × Sphere)) (h : sphere.intersect ray = none) :
    scanSpheres ray (sphere :: rest) i st = scanSpheres ray rest (i + 1) st := by
  obtain ⟨T0, sel0⟩ := st
  simp [scanSpheres, h]

theorem scanSpheres_cons_hit {ray : Ray} {sphere : Sphere} {t : ℝ} (rest : List Sphere)
    (i : ℕ) (st : ℝ × Option (ℕ × Sphere)) (h : sphere.intersect ray = some t)
    (hlt : t < st.1) :
    scanSpheres ray (sphere :: rest) i st = scanSpheres ray rest (i + 1) (t, some (i, sphere)) := by
  obtain ⟨T0, sel0⟩ := st
  simp only at hlt
  simp [scanSpheres, h, hlt]

theorem scanSpheres_cons_far {ray : Ray} {sphere : Sphere} {t : ℝ} (rest : List Sphere)
    (i : ℕ) (st : ℝ × Option (ℕ × Sphere)) (h : sphere.intersect ray = some t)
    (hge : ¬ t < st.1) :
    scanSpheres ray (sphere :: rest) i st = scanSpheres ray rest (i + 1) st := by
  obtain ⟨T0, sel0⟩ := st
  simp only at hge
  simp [scanSpheres, h, hge]

/-- The near root for a unit sphere on the z axis and a ray along the axis with
direction `(0, 0, dz)`, `dz = ±1`. -/
theorem axis_nearRoot (cz oz dz : ℝ) (color : Vec3) (r ri : ℝ) (hdz : dz * dz = 1) :
    Sphere.discriminant (axisSphere cz color r ri) ⟨⟨0, 0, oz⟩, ⟨0, 0, dz⟩⟩ = 2 * 2 ∧
    Sphere.nearRoot (axisSphere cz color r ri) ⟨⟨0, 0, oz⟩, ⟨0, 0, dz⟩⟩
      = -((oz - cz) * dz) - 1 := by
  have hD : Sphere.discriminant (axisSphere cz color r ri) ⟨⟨0, 0, oz⟩, ⟨0, 0, dz⟩⟩ = 2 * 2 := by
    simp only [Sphere.discriminant, Sphere.quadA, Sphere.quadB, Sphere.quadC, Vec3.dot,
      axisSphere, Vec3.sub_x, Vec3.sub_y, Vec3.sub_z]
    ring_nf
    ring_nf at hdz
    nlinarith [hdz]
  refine ⟨hD, ?_⟩
  rw [Sphere.nearRoot_of_disc_sq (by norm_num) hD]
  simp only [Sphere.quadA, Sphere.quadB, Vec3.dot, axisSphere, Vec3.sub_x, Vec3.sub_y,
    Vec3.sub_z]
  have h1 : (0 : ℝ) * 0 + 0 * 0 + dz * dz = 1 := by rw [hdz]; ring
  rw [h1]
  ring

theorem axis_intersect_hit (cz oz dz : ℝ) (color : Vec3) (r ri : ℝ) (hdz : dz * dz = 1)
    (hpos : 0 < -((oz - cz) * dz) - 1) :
    (axisSphere cz color r ri).intersect ⟨⟨0, 0, oz⟩, ⟨0, 0, dz⟩⟩
      = some (-((oz - cz) * dz) - 1) := by
  obtain ⟨hD, hR⟩ := axis_nearRoot cz oz dz color r ri hdz
  rw [← hR]
  exact Sphere.intersect_eq_some_of (by rw [hD]; norm_num) (by rw [hR]; exact hpos)

theorem axis_intersect_miss (cz oz dz : ℝ) (color : Vec3) (r ri : ℝ) (hdz : dz * dz = 1)
    (hneg : -((oz - cz) * dz) - 1 ≤ 0) :
    (axisSphere cz color r ri).intersect ⟨⟨0, 0, oz⟩, ⟨0, 0, dz⟩⟩ = none := by
  obtain ⟨-, hR⟩ := axis_nearRoot cz oz dz color r ri hdz
  exact Sphere.intersect_eq_none_of_root (by rw [hR]; exact hneg)

theorem nearestHit_tieScene : nearestHit tieScene axisRay = (4, some (0, redSphere)) := by
  have h1 : redSphere.intersect axisRay = some 4 := redSphere_intersect_axisRay
  have h2 : greenTwin.intersect axisRay = some 4 := greenTwin_intersect_axisRay
  show scanSpheres axisRay [redSphere, greenTwin] 0 (FLT_MAX, none) = _
  rw [scanSpheres_cons_hit _ _ _ h1 (by simp only [FLT_MAX]; norm_num),
    scanSpheres_cons_far _ _ _ h2 (by simp)]
  rfl

theorem backSphere_intersect_axisRay : backSphere.intersect axisRay = none :=
  axis_intersect_miss 5 0 (-1) _ _ _ (by norm_num) (by norm_num)

theorem nearestHit_behindScene : nearestHit behindScene axisRay = (FLT_MAX, none) := by
  show scanSpheres axisRay [backSphere] 0 (FLT_MAX, none) = _
  rw [scanSpheres_cons_none _ _ _ backSphere_intersect_axisRay]
  rfl

theorem glassSphere_intersect_axisRay : glassSphere.intersect axisRay = some 4 :=
  redSphere_intersect_axisRay

theorem nearestHit_glassScene : nearestHit glassScene axisRay = (4, some (0, glassSphere)) := by
  show scanSpheres axisRay [glassSphere, backSphere] 0 (FLT_MAX, none) = _
  rw [scanSpheres_cons_hit _ _ _ glassSphere_intersect_axisRay
      (by simp only [FLT_MAX]; norm_num),
    scanSpheres_cons_none _ _ _ backSphere_intersect_axisRay]
  rfl

/-! ## C4: the depth bound -/

/-- The evaluations of one call are bounded by the size of the full binary tree
of the remaining depth. -/
theorem evals_le_pow (scene : Scene) (lightPos : Vec3) :
    ∀ (depth : ℤ) (ray : Ray),
      (calculateColorCounted ray scene lightPos depth).2 ≤ 2 ^ ((2 - depth).toNat + 1) - 1 := by
  apply depth_induction
  · intro d hd ray
    rw [evals_depth_ge_two scene lightPos d hd ray]
    have h0 : (2 - d).toNat = 0 := by omega
    rw [h0]
    norm_num
  · intro d hd ih ray
    have hn : (2 - d).toNat = (2 - (d + 1)).toNat + 1 := by omega
    rcases hsel : nearestHit scene ray with ⟨T, _ | ⟨i, s⟩⟩
    · rw [calculateColorCounted_miss _ _ _ _ (by rw [hsel])]
      have : 1 ≤ 2 ^ (2 - d).toNat := Nat.one_le_two_pow
      simp only [pow_succ]
      omega
    · rw [evals_hit _ _ _ _ T i s hsel, hn]
      have h1 := ih (reflectionRay ray T s)
      have h2 := ih (refractionRay ray T s)
      have hp : 1 ≤ 2 ^ ((2 - (d + 1)).toNat + 1) := Nat.one_le_two_pow
      rw [pow_succ 2 ((2 - (d + 1)).toNat + 1)]
      split_ifs <;> omega

/-- C4.  `calculateColor` is total, and the number of invocations a call makes
is finite for every scene, ray and integer depth (at most
`2 ^ (max (2 - depth) 0 + 1) - 1`).  For every depth `≥ 2` the call makes no
recursive call (it is one evaluation), and for a hit the result is exactly
`color * 0.1 + color * max(0, dot(normal, lightDir))
 + (1,1,1) * max(0, dot(viewDir, reflect(lightDir, normal)))^32`,
the same for every sphere with that centre and base colour, whatever its
reflectivity and refractive index. -/
theorem calculateColor_depth_bound (ray : Ray) (scene : Scene) (lightPos : Vec3) (depth : ℤ)
    (T : ℝ) (i : ℕ) (s : Sphere) (hd : 2 ≤ depth)
    (hhit : nearestHit scene ray = (T, some (i, s))) :
    (∀ (depth' : ℤ) (ray' : Ray),
      (calculateColorCounted ray' scene lightPos depth').2
        ≤ 2 ^ ((2 - depth').toNat + 1) - 1) ∧
    (calculateColorCounted ray scene lightPos depth).2 = 1 ∧
    calculateColor ray scene lightPos depth
      = s.color * (0.1 : ℝ)
        + s.color * max 0 ((normalAt ray T s).dot (lightDirAt ray T lightPos))
        + (⟨1, 1, 1⟩ : Vec3)
          * (max 0 ((viewDirAt ray T).dot
              ((lightDirAt ray T lightPos).reflect (normalAt ray T s)))) ^ 32 ∧
    (∀ s' : Sphere, s'.center = s.center → s'.color = s.color →
      localColor ray T s' lightPos = calculateColor ray scene lightPos depth) := by
  have hnot : ¬ depth < 2 := by omega
  have hcol : calculateColor ray scene lightPos depth = localColor ray T s lightPos := by
    rw [calculateColor_hit _ _ _ _ T i s hhit]
    simp [hnot]
  refine ⟨evals_le_pow scene lightPos, evals_depth_ge_two scene lightPos depth hd ray, ?_, ?_⟩
  · rw [hcol]
    simp [localColor]
  · intro s' hc hcl
    rw [hcol]
    simp only [localColor, normalAt, hc, hcl]

/-- C4 at `tieScene`, `axisRay`, depth 2: the hit on the red sphere is shaded
by the local colour alone, in one evaluation. -/
theorem calculateColor_depth_bound_witness :
    (calculateColorCounted axisRay tieScene mainLight 2).2 = 1 ∧
    calculateColor axisRay tieScene mainLight 2
      = redSphere.color * (0.1 : ℝ)
        + redSphere.color
          * max 0 ((normalAt axisRay 4 redSphere).dot (lightDirAt axisRay 4 mainLight))
        + (⟨1, 1, 1⟩ : Vec3)
          * (max 0 ((viewDirAt axisRay 4).dot
              ((lightDirAt axisRay 4 mainLight).reflect (normalAt axisRay 4 redSphere)))) ^ 32 :=
  have h := calculateColor_depth_bound axisRay tieScene mainLight 2 4 0 redSphere
    (le_refl 2) nearestHit_tieScene
  ⟨h.2.1, h.2.2.1⟩

/-! ## C5, C6: the blends -/

/-- C5.  For every hit at depth `< 2` on a sphere with `refractiveIndex ≤ 1.0`:
when the reflectivity `r` is positive the result is
`local * (1 - r) + R * r`, with `local = ambient + diffuse + specular` and `R`
the colour `calculateColor` returns at `depth + 1` for the ray
`Ray(hitPoint + normal * 0.001, reflect(ray.direction, normal))`; when `r ≤ 0`
the result is `local`. -/
theorem calculateColor_reflection_blend (ray : Ray) (scene : Scene) (lightPos : Vec3)
    (depth : ℤ) (T : ℝ) (i : ℕ) (s : Sphere)
    (hhit : nearestHit scene ray = (T, some (i, s))) (hd : depth < 2)
    (hri : s.refractiveIndex ≤ 1) :
    (s.reflectivity > 0 →
      calculateColor ray scene lightPos depth
        = localColor ray T s lightPos * (1 - s.reflectivity)
          + calculateColor
              (Ray.new (hitPoint ray T + normalAt ray T s * (0.001 : ℝ))
                (ray.direction.reflect (normalAt ray T s)))
              scene lightPos (depth + 1) * s.reflectivity) ∧
    (s.reflectivity ≤ 0 → calculateColor ray scene lightPos depth = localColor ray T s lightPos) := by
  have hnri : ¬ s.refractiveIndex > 1 := not_lt.mpr hri
  rw [calculateColor_hit _ _ _ _ T i s hhit]
  constructor
  · intro hr
    simp [hd, hr, hnri, reflectionRay]
  · intro hr
    have hnr : ¬ s.reflectivity > 0 := not_lt.mpr hr
    simp [hnr, hnri]

/-- C5 at `tieScene`, `axisRay`, depth 0: the red sphere (reflectivity `0.5`,
refractive index `1.0`) blends its local colour with the reflection colour,
half each. -/
theorem calculateColor_reflection_blend_witness :
    calculateColor axisRay tieScene mainLight 0
      = localColor axisRay 4 redSphere mainLight * (1 - redSphere.reflectivity)
        + calculateColor
            (Ray.new (hitPoint axisRay 4 + normalAt axisRay 4 redSphere * (0.001 : ℝ))
              (axisRay.direction.reflect (normalAt axisRay 4 redSphere)))
            tieScene mainLight (0 + 1) * redSphere.reflectivity :=
  (calculateColor_reflection_blend axisRay tieScene mainLight 0 4 0 redSphere
    nearestHit_tieScene (by norm_num) (by simp [redSphere, axisSphere])).1
    (by simp only [redSphere, axisSphere]; norm_num)

theorem Vec3.blend_twice (L R T : Vec3) (r : ℝ) :
    (L * (1 - r) + R * r) * (1 - r) + T * r
      = L * ((1 - r) ^ 2) + R * (r * (1 - r)) + T * r := by
  apply Vec3.ext <;> simp <;> ring

/-- C6.  For every hit at depth `< 2` on a sphere with reflectivity `r > 0` and
`refractiveIndex > 1.0` whose refracted direction is not the zero sentinel, the
result is `local * (1 - r)² + R * (r * (1 - r)) + T * r`: `local` is the Phong
colour, `R` the reflection colour and `T` the colour `calculateColor` returns at
`depth + 1` for the ray
`Ray(hitPoint - normal * 0.001, refract(ray.direction, normal, 1 / refractiveIndex))`.
The refraction blend uses the reflectivity `r` as its weight, and the three
weights sum to 1. -/
theorem calculateColor_refraction_blend (ray : Ray) (scene : Scene) (lightPos : Vec3)
    (depth : ℤ) (T : ℝ) (i : ℕ) (s : Sphere)
    (hhit : nearestHit scene ray = (T, some (i, s))) (hd : depth < 2)
    (hr : s.reflectivity > 0) (hri : s.refractiveIndex > 1)
    (hnz : notZeroSentinel
      (ray.direction.refract (normalAt ray T s) (1 / s.refractiveIndex))) :
    calculateColor ray scene lightPos depth
      = localColor ray T s lightPos * ((1 - s.reflectivity) ^ 2)
        + calculateColor
            (Ray.new (hitPoint ray T + normalAt ray T s * (0.001 : ℝ))
              (ray.direction.reflect (normalAt ray T s)))
            scene lightPos (depth + 1) * (s.reflectivity * (1 - s.reflectivity))
        + calculateColor
            (Ray.new (hitPoint ray T - normalAt ray T s * (0.001 : ℝ))
              (ray.direction.refract (normalAt ray T s) (1 / s.refractiveIndex)))
            scene lightPos (depth + 1) * s.reflectivity ∧
    (1 - s.reflectivity) ^ 2 + s.reflectivity * (1 - s.reflectivity) + s.reflectivity = 1 := by
  have hnz' : notZeroSentinel (refractionDir ray T s) := by
    simpa [refractionDir] using hnz
  constructor
  · rw [calculateColor_hit _ _ _ _ T i s hhit]
    simp only [hd, hr, hri, hnz', and_self, if_true]
    rw [Vec3.blend_twice]
    simp [reflectionRay, refractionRay, refractionDir]
  · ring

/-! ## The rays spawned at the glass sphere -/

theorem Vec3.normalize_axis_pos (k : ℝ) (hk : 0 < k) :
    Vec3.normalize ⟨0, 0, k⟩ = ⟨0, 0, 1⟩ := by
  have hs : Real.sqrt (0 * 0 + 0 * 0 + k * k) = k := by
    rw [show (0 : ℝ) * 0 + 0 * 0 + k * k = k * k by ring]
    exact Real.sqrt_mul_self hk.le
  unfold Vec3.normalize
  simp only [hs]
  apply Vec3.ext
  · simp
  · simp
  · exact div_self (ne_of_gt hk)

theorem Vec3.normalize_axis_neg (k : ℝ) (hk : k < 0) :
    Vec3.normalize ⟨0, 0, k⟩ = ⟨0, 0, -1⟩ := by
  have hs : Real.sqrt (0 * 0 + 0 * 0 + k * k) = -k := by
    rw [show (0 : ℝ) * 0 + 0 * 0 + k * k = (-k) * (-k) by ring]
    exact Real.sqrt_mul_self (by linarith)
  unfold Vec3.normalize
  simp only [hs]
  apply Vec3.ext
  · simp
  · simp
  · show k / -k = -1
    rw [div_neg, div_self (ne_of_lt hk)]

theorem hitPoint_axisRay (t : ℝ) : hitPoint axisRay t = ⟨0, 0, -t⟩ := by
  apply Vec3.ext <;> simp [hitPoint, axisRay]

theorem normalAt_glass : normalAt axisRay 4 glassSphere = ⟨0, 0, 1⟩ := by
  have h : hitPoint axisRay 4 - glassSphere.center = ⟨0, 0, 1⟩ := by
    rw [hitPoint_axisRay]
    apply Vec3.ext <;> simp [glassSphere, axisSphere]
    norm_num
  unfold normalAt
  rw [h]
  exact Vec3.normalize_axis_pos 1 (by norm_num)

theorem reflectionRay_glass :
    reflectionRay axisRay 4 glassSphere = ⟨⟨0, 0, -3.999⟩, ⟨0, 0, 1⟩⟩ := by
  have hdir : axisRay.direction.reflect (⟨0, 0, 1⟩ : Vec3) = ⟨0, 0, 1⟩ := by
    apply Vec3.ext <;> simp [Vec3.reflect, Vec3.dot, axisRay]
    norm_num
  have horig : hitPoint axisRay 4 + (⟨0, 0, 1⟩ : Vec3) * (0.001 : ℝ) = ⟨0, 0, -3.999⟩ := by
    rw [hitPoint_axisRay]
    apply Vec3.ext <;> simp
    norm_num
  simp only [reflectionRay, normalAt_glass, hdir, horig, Ray.new]
  rw [Vec3.normalize_axis_pos 1 (by norm_num)]

theorem refractionDir_glass : refractionDir axisRay 4 glassSphere = ⟨0, 0, -1⟩ := by
  have hcos : -((⟨0, 0, 1⟩ : Vec3).dot axisRay.direction) = 1 := by
    simp [Vec3.dot, axisRay]
  unfold refractionDir Vec3.refract
  rw [normalAt_glass]
  simp only [hcos]
  have hsin : (1 / glassSphere.refractiveIndex) * (1 / glassSphere.refractiveIndex)
      * (1 - (1 : ℝ) * 1) = 0 := by ring
  rw [hsin]
  have hnot : ¬ ((0 : ℝ) > 1) := by norm_num
  rw [if_neg hnot]
  apply Vec3.ext <;> simp [axisRay]
  ring

theorem refractionDir_glass_notZero : notZeroSentinel (refractionDir axisRay 4 glassSphere) := by
  rw [refractionDir_glass]
  right
  right
  show (-1 : ℝ) ≠ 0
  norm_num

theorem nearestHit_glassScene_reflection :
    nearestHit glassScene ⟨⟨0, 0, -3.999⟩, ⟨0, 0, 1⟩⟩ = (7.999, some (1, backSphere)) := by
  have h1 : glassSphere.intersect ⟨⟨0, 0, -3.999⟩, ⟨0, 0, 1⟩⟩ = none :=
    axis_intersect_miss (-5) (-3.999) 1 _ _ _ (by norm_num) (by norm_num)
  have h2 : backSphere.intersect ⟨⟨0, 0, -3.999⟩, ⟨0, 0, 1⟩⟩ = some 7.999 := by
    have := axis_intersect_hit 5 (-3.999) 1 ⟨0, 0, 1⟩ 0.5 1 (by norm_num) (by norm_num)
    rw [show -(((-3.999 : ℝ) - 5) * 1) - 1 = 7.999 by norm_num] at this
    exact this
  show scanSpheres _ [glassSphere, backSphere] 0 (FLT_MAX, none) = _
  rw [scanSpheres_cons_none _ _ _ h1,
    scanSpheres_cons_hit _ _ _ h2 (by simp only [FLT_MAX]; norm_num)]
  rfl

/-- The call on `glassScene` along `axisRay`: the glass sphere spawns a
reflection call, which hits the reflective sphere behind the eye and spawns a
third call, and a refraction call. -/
theorem evals_glassScene : 4 ≤ (calculateColorCounted axisRay glassScene mainLight 0).2 := by
  rw [evals_hit _ _ _ _ 4 0 glassSphere nearestHit_glassScene]
  have hr : glassSphere.reflectivity > 0 := by
    simp only [glassSphere, axisSphere]
    norm_num
  have hri : glassSphere.refractiveIndex > 1 := by
    simp only [glassSphere, axisSphere]
    norm_num
  have h0 : (0 : ℤ) < 2 := by norm_num
  rw [if_pos ⟨h0, hr⟩, if_pos ⟨⟨h0, hri⟩, refractionDir_glass_notZero⟩, reflectionRay_glass]
  have hrefl : (calculateColorCounted ⟨⟨0, 0, -3.999⟩, ⟨0, 0, 1⟩⟩ glassScene mainLight
      (0 + 1)).2 = 2 := by
    rw [evals_hit _ _ _ _ 7.999 1 backSphere nearestHit_glassScene_reflection]
    have hb : backSphere.reflectivity > 0 := by
      simp only [backSphere, axisSphere]
      norm_num
    have hbi : ¬ backSphere.refractiveIndex > 1 := by
      simp only [backSphere, axisSphere]
      norm_num
    have h1 : ((0 : ℤ) + 1) < 2 := by norm_num
    rw [if_pos ⟨h1, hb⟩, if_neg (fun h => hbi h.1.2),
      evals_depth_ge_two glassScene mainLight (0 + 1 + 1) (by norm_num)]
  rw [hrefl]
  have := evals_pos glassScene mainLight (0 + 1) (refractionRay axisRay 4 glassSphere)
  omega

/-- C6 at `glassScene`, `axisRay`, depth 0: the glass sphere (reflectivity `0.5`,
refractive index `1.5`) is hit head-on, the refracted direction is `(0, 0, -1)`,
and the three colours are blended with weights `(1 - r)²`, `r (1 - r)`, `r`. -/
theorem calculateColor_refraction_blend_witness :
    calculateColor axisRay glassScene mainLight 0
      = localColor axisRay 4 glassSphere mainLight * ((1 - glassSphere.reflectivity) ^ 2)
        + calculateColor
            (Ray.new (hitPoint axisRay 4 + normalAt axisRay 4 glassSphere * (0.001 : ℝ))
              (axisRay.direction.reflect (normalAt axisRay 4 glassSphere)))
            glassScene mainLight (0 + 1)
          * (glassSphere.reflectivity * (1 - glassSphere.reflectivity))
        + calculateColor
            (Ray.new (hitPoint axisRay 4 - normalAt axisRay 4 glassSphere * (0.001 : ℝ))
              (axisRay.direction.refract (normalAt axisRay 4 glassSphere)
                (1 / glassSphere.refractiveIndex)))
            glassScene mainLight (0 + 1) * glassSphere.reflectivity :=
  (calculateColor_refraction_blend axisRay glassScene mainLight 0 4 0 glassSphere
    nearestHit_glassScene (by norm_num)
    (by simp only [glassSphere, axisSphere]; norm_num)
    (by simp only [glassSphere, axisSphere]; norm_num)
    refractionDir_glass_notZero).1

/-! ## The bound 7 is attained -/

theorem axisRay_eq_new : Ray.new ⟨0, 0, 0⟩ ⟨0, 0, -1⟩ = axisRay := by
  unfold Ray.new axisRay
  rw [Vec3.normalize_axis_neg (-1) (by norm_num)]

theorem refractionRay_glass :
    refractionRay axisRay 4 glassSphere = ⟨⟨0, 0, -4.001⟩, ⟨0, 0, -1⟩⟩ := by
  have horig : hitPoint axisRay 4 - (⟨0, 0, 1⟩ : Vec3) * (0.001 : ℝ) = ⟨0, 0, -4.001⟩ := by
    rw [hitPoint_axisRay]
    apply Vec3.ext <;> simp
    norm_num
  simp only [refractionRay, refractionDir_glass, normalAt_glass, horig, Ray.new]
  rw [Vec3.normalize_axis_neg (-1) (by norm_num)]

/-- On the z axis, a ray that meets a sphere from outside (normal opposite to
the direction) is refracted straight on: the direction is not the sentinel. -/
theorem refractionDir_axis_notZero (oz dz t cz : ℝ) (color : Vec3) (r ri : ℝ)
    (hdz : dz = 1 ∨ dz = -1) (hk : (oz + dz * t - cz) * dz < 0) :
    notZeroSentinel
      (refractionDir ⟨⟨0, 0, oz⟩, ⟨0, 0, dz⟩⟩ t (axisSphere cz color r ri)) := by
  have hdiff : hitPoint ⟨⟨0, 0, oz⟩, ⟨0, 0, dz⟩⟩ t - (axisSphere cz color r ri).center
      = ⟨0, 0, oz + dz * t - cz⟩ := by
    apply Vec3.ext <;> simp [hitPoint, axisSphere]
  have hn : normalAt ⟨⟨0, 0, oz⟩, ⟨0, 0, dz⟩⟩ t (axisSphere cz color r ri) = ⟨0, 0, -dz⟩ := by
    unfold normalAt
    rw [hdiff]
    rcases hdz with h | h
    · rw [h] at hk ⊢
      exact Vec3.normalize_axis_neg _ (by linarith)
    · rw [h] at hk ⊢
      rw [neg_neg]
      exact Vec3.normalize_axis_pos _ (by linarith)
  have hsq : dz * dz = 1 := by
    rcases hdz with h | h <;> rw [h] <;> norm_num
  have hcos : -((⟨0, 0, -dz⟩ : Vec3).dot (⟨0, 0, dz⟩ : Vec3)) = 1 := by
    simp only [Vec3.dot]
    linarith
  unfold refractionDir Vec3.refract
  rw [hn]
  simp only [hcos]
  have hsin : (1 / (axisSphere cz color r ri).refractiveIndex)
      * (1 / (axisSphere cz color r ri).refractiveIndex) * (1 - (1 : ℝ) * 1) = 0 := by ring
  rw [hsin, if_neg (by norm_num)]
  right
  right
  simp only [Vec3.add_z, Vec3.scale_z, sub_zero, Real.sqrt_one, mul_one]
  intro h0
  have : dz = 0 := by linarith
  rw [this] at hsq
  norm_num at hsq

theorem nearestHit_glassTriple : nearestHit glassTriple axisRay = (4, some (0, glassSphere)) := by
  have h2 : glassBack.intersect axisRay = none :=
    axis_intersect_miss 5 0 (-1) _ _ _ (by norm_num) (by norm_num)
  have h3 : glassFar.intersect axisRay = some 9 := by
    have := axis_intersect_hit (-10) 0 (-1) ⟨1, 0, 0⟩ 0.5 1.5 (by norm_num) (by norm_num)
    rw [show -(((0 : ℝ) - -10) * -1) - 1 = 9 by norm_num] at this
    exact this
  show scanSpheres axisRay [glassSphere, glassBack, glassFar] 0 (FLT_MAX, none) = _
  rw [scanSpheres_cons_hit _ _ _ glassSphere_intersect_axisRay
      (by simp only [FLT_MAX]; norm_num),
    scanSpheres_cons_none _ _ _ h2, scanSpheres_cons_far _ _ _ h3 (by norm_num)]
  rfl

theorem nearestHit_glassTriple_reflection :
    nearestHit glassTriple ⟨⟨0, 0, -3.999⟩, ⟨0, 0, 1⟩⟩ = (7.999, some (1, glassBack)) := by
  have h1 : glassSphere.intersect ⟨⟨0, 0, -3.999⟩, ⟨0, 0, 1⟩⟩ = none :=
    axis_intersect_miss (-5) (-3.999) 1 _ _ _ (by norm_num) (by norm_num)
  have h2 : glassBack.intersect ⟨⟨0, 0, -3.999⟩, ⟨0, 0, 1⟩⟩ = some 7.999 := by
    have := axis_intersect_hit 5 (-3.999) 1 ⟨0, 0, 1⟩ 0.5 1.5 (by norm_num) (by norm_num)
    rw [show -(((-3.999 : ℝ) - 5) * 1) - 1 = 7.999 by norm_num] at this
    exact this
  have h3 : glassFar.intersect ⟨⟨0, 0, -3.999⟩, ⟨0, 0, 1⟩⟩ = none :=
    axis_intersect_miss (-10) (-3.999) 1 _ _ _ (by norm_num) (by norm_num)
  show scanSpheres _ [glassSphere, glassBack, glassFar] 0 (FLT_MAX, none) = _
  rw [scanSpheres_cons_none _ _ _ h1,
    scanSpheres_cons_hit _ _ _ h2 (by simp only [FLT_MAX]; norm_num),
    scanSpheres_cons_none _ _ _ h3]
  rfl

theorem nearestHit_glassTriple_refraction :
    nearestHit glassTriple ⟨⟨0, 0, -4.001⟩, ⟨0, 0, -1⟩⟩ = (4.999, some (2, glassFar)) := by
  have h1 : glassSphere.intersect ⟨⟨0, 0, -4.001⟩, ⟨0, 0, -1⟩⟩ = none :=
    axis_intersect_miss (-5) (-4.001) (-1) _ _ _ (by norm_num) (by norm_num)
  have h2 : glassBack.intersect ⟨⟨0, 0, -4.001⟩, ⟨0, 0, -1⟩⟩ = none :=
    axis_intersect_miss 5 (-4.001) (-1) _ _ _ (by norm_num) (by norm_num)
  have h3 : glassFar.intersect ⟨⟨0, 0, -4.001⟩, ⟨0, 0, -1⟩⟩ = some 4.999 := by
    have := axis_intersect_hit (-10) (-4.001) (-1) ⟨1, 0, 0⟩ 0.5 1.5 (by norm_num)
      (by norm_num)
    rw [show -(((-4.001 : ℝ) - -10) * -1) - 1 = 4.999 by norm_num] at this
    exact this
  show scanSpheres _ [glassSphere, glassBack, glassFar] 0 (FLT_MAX, none) = _
  rw [scanSpheres_cons_none _ _ _ h1, scanSpheres_cons_none _ _ _ h2,
    scanSpheres_cons_hit _ _ _ h3 (by simp only [FLT_MAX]; norm_num)]
  rfl

/-- A hit at depth 1 on a glass sphere of the z axis, met from outside: three
evaluations. -/
theorem evals_glass_depth_one (scene : Scene) (oz dz t cz : ℝ) (color : Vec3) (i : ℕ)
    (hdz : dz = 1 ∨ dz = -1) (hk : (oz + dz * t - cz) * dz < 0)
    (hsel : nearestHit scene ⟨⟨0, 0, oz⟩, ⟨0, 0, dz⟩⟩
      = (t, some (i, axisSphere cz color 0.5 1.5))) :
    (calculateColorCounted ⟨⟨0, 0, oz⟩, ⟨0, 0, dz⟩⟩ scene mainLight (0 + 1)).2 = 3 := by
  rw [evals_hit _ _ _ _ t i _ hsel]
  have hr : (axisSphere cz color 0.5 1.5).reflectivity > 0 := by
    simp only [axisSphere]
    norm_num
  have hri : (axisSphere cz color 0.5 1.5).refractiveIndex > 1 := by
    simp only [axisSphere]
    norm_num
  have h1 : ((0 : ℤ) + 1) < 2 := by norm_num
  rw [if_pos ⟨h1, hr⟩,
    if_pos ⟨⟨h1, hri⟩, refractionDir_axis_notZero oz dz t cz color 0.5 1.5 hdz hk⟩,
    evals_depth_ge_two scene mainLight (0 + 1 + 1) (by norm_num),
    evals_depth_ge_two scene mainLight (0 + 1 + 1) (by norm_num)]

/-- On `glassTriple` the primary ray `axisRay` costs exactly 7 evaluations: the
bound of the depth cap is attained. -/
theorem evals_glassTriple : (calculateColorCounted axisRay glassTriple mainLight 0).2 = 7 := by
  rw [evals_hit _ _ _ _ 4 0 glassSphere nearestHit_glassTriple]
  have hr : glassSphere.reflectivity > 0 := by
    simp only [glassSphere, axisSphere]
    norm_num
  have hri : glassSphere.refractiveIndex > 1 := by
    simp only [glassSphere, axisSphere]
    norm_num
  have h0 : (0 : ℤ) < 2 := by norm_num
  rw [if_pos ⟨h0, hr⟩, if_pos ⟨⟨h0, hri⟩, refractionDir_glass_notZero⟩, reflectionRay_glass,
    refractionRay_glass,
    evals_glass_depth_one glassTriple (-3.999) 1 7.999 5 ⟨0, 0, 1⟩ 1 (Or.inl rfl)
      (by norm_num) nearestHit_glassTriple_reflection,
    evals_glass_depth_one glassTriple (-4.001) (-1) 4.999 (-10) ⟨1, 0, 0⟩ 2 (Or.inr rfl)
      (by norm_num) nearestHit_glassTriple_refraction]

/-! ## C7: the number of shading evaluations -/

theorem nearestHit_mem {scene : Scene} {ray : Ray} {T : ℝ} {i : ℕ} {s : Sphere}
    (h : nearestHit scene ray = (T, some (i, s))) : s ∈ scene.spheres := by
  obtain ⟨-, -, h3⟩ := scanSpheres_spec ray scene.spheres 0 FLT_MAX none
  unfold nearestHit at h
  rcases h3 with h3 | ⟨k, s0, hk, hsel0, -, -, -⟩
  · rw [h3] at h
    cases h
  · rw [h] at hsel0
    cases hsel0
    exact List.getElem?_mem hk

/-- When no sphere is both reflective and refractive, every call spawns at most
one call, so the evaluations form a chain. -/
theorem evals_le_chain (scene : Scene) (lightPos : Vec3)
    (hone : ∀ s ∈ scene.spheres, ¬ (s.reflectivity > 0 ∧ s.refractiveIndex > 1)) :
    ∀ (depth : ℤ) (ray : Ray),
      (calculateColorCounted ray scene lightPos depth).2 ≤ (2 - depth).toNat + 1 := by
  apply depth_induction
  · intro d hd ray
    rw [evals_depth_ge_two scene lightPos d hd ray]
    omega
  · intro d hd ih ray
    have hn : (2 - d).toNat = (2 - (d + 1)).toNat + 1 := by omega
    rcases hsel : nearestHit scene ray with ⟨T, _ | ⟨i, s⟩⟩
    · rw [calculateColorCounted_miss _ _ _ _ (by rw [hsel])]
      omega
    · rw [evals_hit _ _ _ _ T i s hsel, hn]
      have h1 := ih (reflectionRay ray T s)
      have h2 := ih (refractionRay ray T s)
      have hs := hone s (nearestHit_mem hsel)
      split_ifs with ha hb hb
      · exact absurd ⟨ha.2, hb.1.2⟩ hs
      · omega
      · omega
      · omega

/-- C7 fails as stated: on `glassScene` the primary ray `axisRay` costs more
than 3 evaluations.  The glass sphere is both reflective and refractive, so the
top-level call spawns two calls, and the reflection call spawns a third. -/
theorem evaluations_exceed_three :
    3 < (calculateColorCounted axisRay glassScene mainLight 0).2 :=
  evals_glassScene

/-- C7, amended.  For every scene, light and primary ray, one top-level call
`calculateColor(ray, scene, light, 0)` performs at most 7 invocations of
`calculateColor` in total, the top-level one included; and at most 3 when no
sphere of the scene has both `reflectivity > 0` and `refractiveIndex > 1.0`.
The count is that of `calculateColorCounted`, whose colour is that of
`calculateColor`; `evals_glassTriple` shows a scene that costs exactly 7. -/
theorem calculateColor_evaluations_le_seven (ray : Ray) (scene : Scene) (lightPos : Vec3) :
    (calculateColorCounted ray scene lightPos 0).1 = calculateColor ray scene lightPos 0 ∧
    (calculateColorCounted ray scene lightPos 0).2 ≤ 7 ∧
    ((∀ s ∈ scene.spheres, ¬ (s.reflectivity > 0 ∧ s.refractiveIndex > 1)) →
      (calculateColorCounted ray scene lightPos 0).2 ≤ 3) := by
  refine ⟨calculateColorCounted_fst scene lightPos 0 ray, ?_, ?_⟩
  · have h := evals_le_pow scene lightPos 0 ray
    norm_num at h
    exact h
  · intro hone
    have h := evals_le_chain scene lightPos hone 0 ray
    norm_num at h
    exact h

/-- C7, amended, at `tieScene` (two opaque reflective spheres): at most 3
evaluations. -/
theorem calculateColor_evaluations_le_seven_witness :
    (calculateColorCounted axisRay tieScene mainLight 0).2 ≤ 3 :=
  (calculateColor_evaluations_le_seven axisRay tieScene mainLight).2.2 (by
    intro s hs
    simp [tieScene, Scene.addSphere] at hs
    rcases hs with rfl | rfl <;> simp [redSphere, greenTwin, axisSphere])

/-! ## C8: the background -/

theorem nearestHit_none_of_miss {scene : Scene} {ray : Ray}
    (hmiss : ∀ s ∈ scene.spheres, s.intersect ray = none) : (nearestHit scene ray).2 = none := by
  obtain ⟨-, -, h3⟩ := scanSpheres_spec ray scene.spheres 0 FLT_MAX none
  rcases h3 with h3 | ⟨k, s0, hk, -, hhit, -, -⟩
  · unfold nearestHit
    rw [h3]
  · rw [hmiss s0 (List.getElem?_mem hk)] at hhit
    cases hhit

/-- C8.  For every scene, ray, light position and depth: if no sphere of the
scene reports a hit for the ray, `calculateColor` returns exactly the background
colour `(0.2, 0.2, 0.3)`; the empty scene is such a scene for every ray. -/
theorem calculateColor_no_hit_background (ray : Ray) (scene : Scene) (lightPos : Vec3)
    (depth : ℤ) (hmiss : ∀ s ∈ scene.spheres, s.intersect ray = none) :
    calculateColor ray scene lightPos depth = ⟨0.2, 0.2, 0.3⟩ ∧
    calculateColor ray {} lightPos depth = ⟨0.2, 0.2, 0.3⟩ := by
  constructor
  · exact calculateColor_miss ray scene lightPos depth (nearestHit_none_of_miss hmiss)
  · exact calculateColor_miss ray {} lightPos depth rfl

/-- C8 at `behindScene`: the only sphere is behind the eye, `axisRay` misses it,
and the colour is the background. -/
theorem calculateColor_no_hit_background_witness :
    (∀ s ∈ behindScene.spheres, s.intersect axisRay = none) ∧
    calculateColor axisRay behindScene mainLight 0 = ⟨0.2, 0.2, 0.3⟩ :=
  have hmiss : ∀ s ∈ behindScene.spheres, s.intersect axisRay = none := by
    intro s hs
    simp [behindScene, Scene.addSphere] at hs
    rw [hs]
    exact backSphere_intersect_axisRay
  ⟨hmiss, (calculateColor_no_hit_background axisRay behindScene mainLight 0 hmiss).1⟩

/-! ## C9, C10: origins inside and outside the sphere -/

/-- C9, amended.  Over exact real arithmetic: for every sphere of radius `> 0`
and every ray whose origin lies strictly inside it, `|origin - center| < radius`,
with any non-zero direction, `intersect` reports no hit. -/
theorem intersect_origin_inside (s : Sphere) (ray : Ray) (hr : 0 < s.radius)
    (hin : (ray.origin - s.center).length < s.radius)
    (hdir : ray.direction.x ≠ 0 ∨ ray.direction.y ≠ 0 ∨ ray.direction.z ≠ 0) :
    s.intersect ray = none := by
  have ha : 0 < Sphere.quadA ray := Sphere.quadA_pos hdir
  have hc : Sphere.quadC s ray < 0 := by
    have h := (Real.sqrt_lt' hr).mp hin
    unfold Sphere.quadC Vec3.dot
    nlinarith [h]
  have hD : Sphere.quadB s ray ^ 2 ≤ Sphere.discriminant s ray := by
    unfold Sphere.discriminant
    nlinarith [mul_pos ha (neg_pos.mpr hc)]
  have habs : |Sphere.quadB s ray| ≤ Real.sqrt (Sphere.discriminant s ray) :=
    Real.abs_le_sqrt hD
  have hnum : -(Sphere.quadB s ray) - Real.sqrt (Sphere.discriminant s ray) ≤ 0 := by
    have := neg_abs_le (Sphere.quadB s ray)
    have := neg_le_abs (Sphere.quadB s ray)
    linarith
  apply Sphere.intersect_eq_none_of_root
  unfold Sphere.nearRoot
  exact div_nonpos_of_nonpos_of_nonneg hnum (by linarith)

/-- C9, amended, at `redSphere` with the ray starting at its centre
`(0, 0, -5)`: no hit. -/
theorem intersect_origin_inside_witness :
    redSphere.intersect ⟨⟨0, 0, -5⟩, ⟨0, 0, -1⟩⟩ = none :=
  intersect_origin_inside redSphere ⟨⟨0, 0, -5⟩, ⟨0, 0, -1⟩⟩
    (by simp [redSphere, axisSphere])
    (by simp [redSphere, axisSphere, Vec3.length])
    (by simp)

/-- C10.  For every sphere of radius `> 0` and every origin strictly outside
it, `|origin - center| > radius`, the ray `Ray(origin, center - origin)` aimed at
the centre is reported as a hit with `t = |origin - center| - radius`. -/
theorem intersect_aimed_at_center (s : Sphere) (origin : Vec3) (hr : 0 < s.radius)
    (hout : s.radius < (origin - s.center).length) :
    s.intersect (Ray.new origin (s.center - origin))
      = some ((origin - s.center).length - s.radius) := by
  have hLpos : 0 < (origin - s.center).length := lt_trans hr hout
  have hLsq : (origin - s.center).length * (origin - s.center).length
      = (origin.x - s.center.x) * (origin.x - s.center.x)
        + (origin.y - s.center.y) * (origin.y - s.center.y)
        + (origin.z - s.center.z) * (origin.z - s.center.z) := by
    unfold Vec3.length
    apply Real.mul_self_sqrt
    simp only [Vec3.sub_x, Vec3.sub_y, Vec3.sub_z]
    nlinarith [mul_self_nonneg (origin.x - s.center.x), mul_self_nonneg (origin.y - s.center.y),
      mul_self_nonneg (origin.z - s.center.z)]
  have hnorm : (s.center - origin).normalize
      = ⟨(s.center.x - origin.x) / (origin - s.center).length,
          (s.center.y - origin.y) / (origin - s.center).length,
          (s.center.z - origin.z) / (origin - s.center).length⟩ := by
    have harg : (s.center - origin).x * (s.center - origin).x
        + (s.center - origin).y * (s.center - origin).y
        + (s.center - origin).z * (s.center - origin).z
        = (origin - s.center).x * (origin - s.center).x
          + (origin - s.center).y * (origin - s.center).y
          + (origin - s.center).z * (origin - s.center).z := by
      simp only [Vec3.sub_x, Vec3.sub_y, Vec3.sub_z]
      ring
    unfold Vec3.normalize
    simp only [harg]
    rfl
  have hne : (origin - s.center).length ≠ 0 := ne_of_gt hLpos
  have hA : Sphere.quadA (Ray.new origin (s.center - origin)) = 1 := by
    simp only [Sphere.quadA, Ray.new, hnorm, Vec3.dot]
    field_simp
    nlinarith [hLsq]
  have hB : Sphere.quadB s (Ray.new origin (s.center - origin))
      = -(2 * (origin - s.center).length) := by
    simp only [Sphere.quadB, Ray.new, hnorm, Vec3.dot, Vec3.sub_x, Vec3.sub_y, Vec3.sub_z]
    field_simp
    nlinarith [hLsq]
  have hC : Sphere.quadC s (Ray.new origin (s.center - origin))
      = (origin - s.center).length * (origin - s.center).length - s.radius * s.radius := by
    simp only [Sphere.quadC, Ray.new, Vec3.dot, Vec3.sub_x, Vec3.sub_y, Vec3.sub_z]
    rw [hLsq]
  have hD : Sphere.discriminant s (Ray.new origin (s.center - origin))
      = (2 * s.radius) * (2 * s.radius) := by
    unfold Sphere.discriminant
    rw [hA, hB, hC]
    ring
  have hR : Sphere.nearRoot s (Ray.new origin (s.center - origin))
      = (origin - s.center).length - s.radius := by
    rw [Sphere.nearRoot_of_disc_sq (by linarith) hD, hA, hB]
    ring
  rw [← hR]
  apply Sphere.intersect_eq_some_of
  · rw [hD]
    nlinarith [mul_self_nonneg (2 * s.radius)]
  · rw [hR]
    linarith

/-- C10 at `redSphere` seen from the eye `(0, 0, 0)`: the distance to the centre
is 5 and the hit is at `t = 5 - 1`. -/
theorem intersect_aimed_at_center_witness :
    redSphere.intersect (Ray.new ⟨0, 0, 0⟩ (redSphere.center - ⟨0, 0, 0⟩))
      = some (((⟨0, 0, 0⟩ : Vec3) - redSphere.center).length - redSphere.radius) :=
  intersect_aimed_at_center redSphere ⟨0, 0, 0⟩ (by simp [redSphere, axisSphere])
    (by
      have h5 : ((⟨0, 0, 0⟩ : Vec3) - redSphere.center).length = 5 := by
        simp only [Vec3.length, Vec3.sub_x, Vec3.sub_y, Vec3.sub_z, redSphere, axisSphere]
        rw [show ((0 : ℝ) - 0) * (0 - 0) + (0 - 0) * (0 - 0) + (0 - -5) * (0 - -5) = 5 * 5 by
          norm_num]
        exact Real.sqrt_mul_self (by norm_num)
      rw [h5]
      simp [redSphere, axisSphere])

/-! ## C11: rays that pass the sphere by -/

/-- With a unit direction the discriminant is four times `radius²` minus the
squared perpendicular distance from the centre to the ray's line. -/
theorem Sphere.discriminant_unit (s : Sphere) (ray : Ray)
    (hunit : ray.direction.dot ray.direction = 1) :
    Sphere.discriminant s ray
      = 4 * (s.radius * s.radius
          - ((ray.origin - s.center).dot (ray.origin - s.center)
              - (ray.origin - s.center).dot ray.direction ^ 2)) := by
  unfold Sphere.discriminant Sphere.quadA Sphere.quadB Sphere.quadC
  rw [hunit]
  ring

theorem negativeSphere_intersect_axisRay : negativeSphere.intersect axisRay = some 4 := by
  have hD : Sphere.discriminant negativeSphere axisRay = 2 * 2 := by
    simp [Sphere.discriminant, Sphere.quadA, Sphere.quadB, Sphere.quadC, Vec3.dot,
      negativeSphere, axisRay]
    norm_num
  have hr : Sphere.nearRoot negativeSphere axisRay = 4 := by
    rw [Sphere.nearRoot_of_disc_sq (by norm_num) hD]
    simp [Sphere.quadA, Sphere.quadB, Vec3.dot, negativeSphere, axisRay]
    norm_num
  have h : negativeSphere.intersect axisRay = some (Sphere.nearRoot negativeSphere axisRay) :=
    Sphere.intersect_eq_some_of (by rw [hD]; norm_num) (by rw [hr]; norm_num)
  rw [hr] at h
  exact h

/-- Why the radius is taken `≥ 0` in the statement on rays that pass a sphere
by: `intersect` reads the radius only through `radius * radius`, so the record
with centre `(0, 0, -5)` and radius `-1`, outside the data model, is hit at
`t = 4` by `axisRay`, which passes its centre at distance `0 > -1`. -/
theorem miss_fails_for_negative_radius :
    axisRay.direction.dot axisRay.direction = 1 ∧
    Real.sqrt ((axisRay.origin - negativeSphere.center).dot
        (axisRay.origin - negativeSphere.center)
      - (axisRay.origin - negativeSphere.center).dot axisRay.direction ^ 2)
      > negativeSphere.radius ∧
    negativeSphere.intersect axisRay = some 4 := by
  refine ⟨by simp [Vec3.dot, axisRay], ?_, negativeSphere_intersect_axisRay⟩
  have h0 : (0 : ℝ) ≤ Real.sqrt ((axisRay.origin - negativeSphere.center).dot
        (axisRay.origin - negativeSphere.center)
      - (axisRay.origin - negativeSphere.center).dot axisRay.direction ^ 2) :=
    Real.sqrt_nonneg _
  have hr : negativeSphere.radius = -1 := rfl
  rw [hr]
  linarith

/-- C11, amended.  Over exact real arithmetic: for every sphere of radius `≥ 0`
(the data model has `radius > 0`) and every ray of unit direction, if the
perpendicular distance from the centre to the ray's line,
`sqrt(|oc|² - dot(oc, dir)²)`, is greater than the radius, `intersect` reports
no hit. -/
theorem intersect_none_of_perpendicular_miss (s : Sphere) (ray : Ray) (hr : 0 ≤ s.radius)
    (hunit : ray.direction.dot ray.direction = 1)
    (hmiss : Real.sqrt ((ray.origin - s.center).dot (ray.origin - s.center)
      - (ray.origin - s.center).dot ray.direction ^ 2) > s.radius) :
    s.intersect ray = none := by
  apply Sphere.intersect_eq_none_of_disc
  rw [Sphere.discriminant_unit s ray hunit]
  have h := (Real.lt_sqrt hr).mp hmiss
  nlinarith [h]

/-- C11, amended, at `redSphere` and the ray from `(2, 0, 0)` down the z axis:
the perpendicular distance is 2, the radius 1, and there is no hit. -/
theorem intersect_none_of_perpendicular_miss_witness :
    redSphere.intersect ⟨⟨2, 0, 0⟩, ⟨0, 0, -1⟩⟩ = none :=
  intersect_none_of_perpendicular_miss redSphere ⟨⟨2, 0, 0⟩, ⟨0, 0, -1⟩⟩
    (by simp [redSphere, axisSphere])
    (by simp [Vec3.dot])
    (by
      have h4 : ((⟨2, 0, 0⟩ : Vec3) - redSphere.center).dot ((⟨2, 0, 0⟩ : Vec3) - redSphere.center)
          - ((⟨2, 0, 0⟩ : Vec3) - redSphere.center).dot (⟨0, 0, -1⟩ : Vec3) ^ 2 = 2 * 2 := by
        simp [Vec3.dot, redSphere, axisSphere]
        norm_num
      show Real.sqrt (((⟨2, 0, 0⟩ : Vec3) - redSphere.center).dot
          ((⟨2, 0, 0⟩ : Vec3) - redSphere.center)
        - ((⟨2, 0, 0⟩ : Vec3) - redSphere.center).dot (⟨0, 0, -1⟩ : Vec3) ^ 2) > redSphere.radius
      rw [h4, Real.sqrt_mul_self (by norm_num)]
      simp [redSphere, axisSphere])

/-! ## C12: `refract` -/

/-- C12.  With `cosI = -dot(n, v)` and `sin2T = eta² (1 - cosI²)`,
`refract(v, n, eta)` is the zero vector `(0, 0, 0)` whenever `sin2T > 1`, and
`v * eta + n * (eta * cosI - sqrt(1 - sin2T))` whenever `sin2T ≤ 1`. -/
theorem refract_cases (v n : Vec3) (eta : ℝ) :
    (eta ^ 2 * (1 - (-(n.dot v)) ^ 2) > 1 → v.refract n eta = ⟨0, 0, 0⟩) ∧
    (eta ^ 2 * (1 - (-(n.dot v)) ^ 2) ≤ 1 →
      v.refract n eta
        = v * eta
          + n * (eta * (-(n.dot v)) - Real.sqrt (1 - eta ^ 2 * (1 - (-(n.dot v)) ^ 2)))) := by
  have hs : eta * eta * (1 - -(n.dot v) * -(n.dot v)) = eta ^ 2 * (1 - (-(n.dot v)) ^ 2) := by
    ring
  constructor
  · intro h
    unfold Vec3.refract
    simp only [hs]
    rw [if_pos h]
  · intro h
    unfold Vec3.refract
    simp only [hs]
    rw [if_neg (not_lt.mpr h)]

/-- C12 at `n = (0, 0, 1)`: for `v = (1, 0, 0)` and `eta = 2`, `sin2T = 4` and
the result is the zero vector; for `v = (0, 0, -1)` and `eta = 1/2`, `sin2T = 0`
and the result is given by the transmission formula. -/
theorem refract_cases_witness :
    (⟨1, 0, 0⟩ : Vec3).refract ⟨0, 0, 1⟩ 2 = ⟨0, 0, 0⟩ ∧
    (⟨0, 0, -1⟩ : Vec3).refract ⟨0, 0, 1⟩ (1 / 2)
      = (⟨0, 0, -1⟩ : Vec3) * (1 / 2 : ℝ)
        + (⟨0, 0, 1⟩ : Vec3) * ((1 / 2 : ℝ) * (-((⟨0, 0, 1⟩ : Vec3).dot ⟨0, 0, -1⟩))
            - Real.sqrt (1 - (1 / 2 : ℝ) ^ 2
                * (1 - (-((⟨0, 0, 1⟩ : Vec3).dot ⟨0, 0, -1⟩)) ^ 2))) :=
  ⟨(refract_cases ⟨1, 0, 0⟩ ⟨0, 0, 1⟩ 2).1 (by simp [Vec3.dot]),
    (refract_cases ⟨0, 0, -1⟩ ⟨0, 0, 1⟩ (1 / 2)).2 (by simp [Vec3.dot])⟩

/-! ## C13, C14: `reflect` and `normalize` -/

theorem Vec3.dot_comm (a b : Vec3) : a.dot b = b.dot a := by
  unfold Vec3.dot
  ring

theorem Vec3.length_pos_iff (v : Vec3) : 0 < v.length ↔ 0 < v.dot v := by
  rw [Vec3.length_eq]
  exact Real.sqrt_pos

theorem Vec3.length_mul_self (v : Vec3) : v.length * v.length = v.dot v := by
  rw [Vec3.length_eq]
  exact Real.mul_self_sqrt (Vec3.dot_self_nonneg v)

/-- `normalize` divides by the length: it is the scaling by `1 / length`. -/
theorem Vec3.normalize_eq_scale (v : Vec3) : v.normalize = v * (1 / v.length) := by
  apply Vec3.ext
  · show v.x / v.length = v.x * (1 / v.length)
    ring
  · show v.y / v.length = v.y * (1 / v.length)
    ring
  · show v.z / v.length = v.z * (1 / v.length)
    ring

theorem Vec3.scale_dot (a b : Vec3) (k : ℝ) : (a * k).dot b = k * a.dot b := by
  simp only [Vec3.dot, Vec3.scale_x, Vec3.scale_y, Vec3.scale_z]
  ring

theorem Vec3.dot_scale (a b : Vec3) (k : ℝ) : a.dot (b * k) = k * a.dot b := by
  simp only [Vec3.dot, Vec3.scale_x, Vec3.scale_y, Vec3.scale_z]
  ring

/-- A normalised vector of non-zero length is a unit vector. -/
theorem Vec3.normalize_dot_self {v : Vec3} (hv : 0 < v.dot v) :
    v.normalize.dot v.normalize = 1 := by
  have hL : 0 < v.length := (Vec3.length_pos_iff v).mpr hv
  rw [Vec3.normalize_eq_scale, Vec3.scale_dot, Vec3.dot_scale, ← Vec3.length_mul_self]
  field_simp

/-- What a reported hit says about the quadratic: the direction is not zero, the
discriminant is non-negative, and `2 a t + b = -sqrt(discriminant)`. -/
theorem Sphere.hit_linear {s : Sphere} {ray : Ray} {t : ℝ} (hhit : s.intersect ray = some t) :
    0 < Sphere.quadA ray ∧ 0 ≤ Sphere.discriminant s ray ∧ 0 < t ∧
    2 * Sphere.quadA ray * t + Sphere.quadB s ray
      = -Real.sqrt (Sphere.discriminant s ray) := by
  obtain ⟨hD0, hpos, ht⟩ := Sphere.intersect_eq_some_iff.mp hhit
  have ha0 : 0 ≤ Sphere.quadA ray := Vec3.dot_self_nonneg _
  have ha : 0 < Sphere.quadA ray := by
    rcases lt_or_eq_of_le ha0 with h | h
    · exact h
    · exfalso
      unfold Sphere.nearRoot at hpos
      rw [← h] at hpos
      simp at hpos
  refine ⟨ha, hD0, by rw [ht]; exact hpos, ?_⟩
  rw [ht]
  unfold Sphere.nearRoot
  field_simp
  ring

/-- The hit point lies on the sphere: `|hitPoint - center|² = radius²`. -/
theorem Sphere.hit_on_sphere {s : Sphere} {ray : Ray} {t : ℝ}
    (hhit : s.intersect ray = some t) :
    (hitPoint ray t - s.center).dot (hitPoint ray t - s.center) = s.radius * s.radius := by
  obtain ⟨ha, hD0, -, hlin⟩ := Sphere.hit_linear hhit
  have hsq : Real.sqrt (Sphere.discriminant s ray) * Real.sqrt (Sphere.discriminant s ray)
      = Sphere.discriminant s ray := Real.mul_self_sqrt hD0
  have hDdef : Sphere.discriminant s ray
      = Sphere.quadB s ray * Sphere.quadB s ray - 4 * Sphere.quadA ray * Sphere.quadC s ray :=
    rfl
  have hq := Sphere.surface_eq_quadratic s ray t
  have hzero : Sphere.quadA ray * (Sphere.quadA ray * t * t + Sphere.quadB s ray * t
      + Sphere.quadC s ray) = 0 := by
    have h2 : (2 * Sphere.quadA ray * t + Sphere.quadB s ray) ^ 2
        = Sphere.discriminant s ray := by
      rw [hlin]
      nlinarith [hsq]
    rw [hDdef] at h2
    nlinarith [h2]
  have hz : Sphere.quadA ray * t * t + Sphere.quadB s ray * t + Sphere.quadC s ray = 0 := by
    rcases mul_eq_zero.mp hzero with h | h
    · exact absurd h (ne_of_gt ha)
    · exact h
  rw [hz] at hq
  linarith

/-- At a hit the ray enters the sphere: the direction has no component along
the outward vector `hitPoint - center`. -/
theorem Sphere.hit_dot_direction {s : Sphere} {ray : Ray} {t : ℝ}
    (hhit : s.intersect ray = some t) :
    (hitPoint ray t - s.center).dot ray.direction
      = -Real.sqrt (Sphere.discriminant s ray) / 2 := by
  obtain ⟨-, -, -, hlin⟩ := Sphere.hit_linear hhit
  have hexp : (hitPoint ray t - s.center).dot ray.direction
      = (2 * Sphere.quadA ray * t + Sphere.quadB s ray) / 2 := by
    simp only [hitPoint, Sphere.quadA, Sphere.quadB, Vec3.dot, Vec3.add_x, Vec3.add_y,
      Vec3.add_z, Vec3.sub_x, Vec3.sub_y, Vec3.sub_z, Vec3.scale_x, Vec3.scale_y, Vec3.scale_z]
    ring
  rw [hexp, hlin]

/-- The length of `hitPoint - center` at a hit on a sphere of positive radius. -/
theorem Sphere.hit_length {s : Sphere} {ray : Ray} {t : ℝ} (hr : 0 < s.radius)
    (hhit : s.intersect ray = some t) : (hitPoint ray t - s.center).length = s.radius := by
  rw [Vec3.length_eq, Sphere.hit_on_sphere hhit]
  exact Real.sqrt_mul_self hr.le

/-- The normal at a hit on a sphere of positive radius is
`(hitPoint - center) / radius`, a unit vector. -/
theorem normalAt_of_hit {s : Sphere} {ray : Ray} {t : ℝ} (hr : 0 < s.radius)
    (hhit : s.intersect ray = some t) :
    normalAt ray t s = (hitPoint ray t - s.center) * (1 / s.radius) ∧
    (normalAt ray t s).dot (normalAt ray t s) = 1 := by
  constructor
  · unfold normalAt
    rw [Vec3.normalize_eq_scale, Sphere.hit_length hr hhit]
  · unfold normalAt
    apply Vec3.normalize_dot_self
    rw [Sphere.hit_on_sphere hhit]
    exact mul_pos hr hr

/-- A ray that does not approach the centre, `dot(oc, direction) ≥ 0`, reports no
hit: its near root is not positive. -/
theorem Sphere.intersect_none_of_quadB_nonneg {s : Sphere} {ray : Ray}
    (hb : 0 ≤ Sphere.quadB s ray) : s.intersect ray = none := by
  apply Sphere.intersect_eq_none_of_root
  unfold Sphere.nearRoot
  have hs : 0 ≤ Real.sqrt (Sphere.discriminant s ray) := Real.sqrt_nonneg _
  have ha : 0 ≤ Sphere.quadA ray := Vec3.dot_self_nonneg _
  exact div_nonpos_of_nonpos_of_nonneg (by linarith) (by linarith)

/-- A ray whose origin is strictly inside the sphere, `dot(oc, oc) < radius²`,
reports no hit, whatever its direction. -/
theorem Sphere.intersect_none_of_quadC_neg {s : Sphere} {ray : Ray}
    (hc : Sphere.quadC s ray < 0) : s.intersect ray = none := by
  have ha : 0 ≤ Sphere.quadA ray := Vec3.dot_self_nonneg _
  have hD : Sphere.quadB s ray ^ 2 ≤ Sphere.discriminant s ray := by
    unfold Sphere.discriminant
    nlinarith [mul_nonneg ha (neg_pos.mpr hc).le]
  have habs : |Sphere.quadB s ray| ≤ Real.sqrt (Sphere.discriminant s ray) :=
    Real.abs_le_sqrt hD
  have hnum : -(Sphere.quadB s ray) - Real.sqrt (Sphere.discriminant s ray) ≤ 0 := by
    have := neg_le_abs (Sphere.quadB s ray)
    linarith
  apply Sphere.intersect_eq_none_of_root
  unfold Sphere.nearRoot
  exact div_nonpos_of_nonpos_of_nonneg hnum (by linarith)

/-- The `b` of a ray built by `Ray(o, raw)` has the sign of `dot(o - center, raw)`. -/
theorem Sphere.quadB_new_nonneg {s : Sphere} {o raw : Vec3}
    (h : 0 ≤ (o - s.center).dot raw) : 0 ≤ Sphere.quadB s (Ray.new o raw) := by
  unfold Sphere.quadB Ray.new
  rw [Vec3.normalize_eq_scale, Vec3.dot_scale]
  have hL : 0 ≤ 1 / raw.length := by
    rw [Vec3.length_eq]
    exact one_div_nonneg.mpr (Real.sqrt_nonneg _)
  have := mul_nonneg hL h
  linarith

/-! ## C18: the reflection ray leaves its sphere -/

/-- Offsetting the hit point along the normal and reflecting the direction:
the new origin, seen from the centre, has the component `-(1 + ε k) dot(w, d)`
along the reflected direction, where `w = hitPoint - center`, the normal is
`w * k` and `k² |w|² = 1`. -/
theorem reflect_offset_dot (P C d : Vec3) (k e : ℝ)
    (hk : k * k * (P - C).dot (P - C) = 1) :
    ((P + ((P - C) * k) * e) - C).dot (d.reflect ((P - C) * k))
      = -(1 + e * k) * (P - C).dot d := by
  have hgen : ((P + ((P - C) * k) * e) - C).dot (d.reflect ((P - C) * k))
      = (1 + e * k) * ((P - C).dot d
          - 2 * (P - C).dot d * (k * k * (P - C).dot (P - C))) := by
    simp only [Vec3.reflect, Vec3.dot, Vec3.add_x, Vec3.add_y, Vec3.add_z, Vec3.sub_x,
      Vec3.sub_y, Vec3.sub_z, Vec3.scale_x, Vec3.scale_y, Vec3.scale_z]
    ring
  rw [hgen, hk]
  ring

/-- The reflection ray built at a hit does not approach the centre of the sphere
it was built on, so that sphere reports no hit for it. -/
theorem Sphere.intersect_reflectionRay_self {s : Sphere} {ray : Ray} {t : ℝ}
    (hr : 0 < s.radius) (hhit : s.intersect ray = some t) :
    s.intersect (reflectionRay ray t s) = none := by
  show s.intersect (Ray.new (hitPoint ray t + normalAt ray t s * (0.001 : ℝ))
      (ray.direction.reflect (normalAt ray t s))) = none
  apply Sphere.intersect_none_of_quadB_nonneg
  apply Sphere.quadB_new_nonneg
  rw [(normalAt_of_hit hr hhit).1]
  have hk : (1 / s.radius) * (1 / s.radius)
      * (hitPoint ray t - s.center).dot (hitPoint ray t - s.center) = 1 := by
    rw [Sphere.hit_on_sphere hhit]
    field_simp
  rw [reflect_offset_dot _ _ _ _ _ hk, Sphere.hit_dot_direction hhit]
  have hs : 0 ≤ Real.sqrt (Sphere.discriminant s ray) := Real.sqrt_nonneg _
  have hpos : 0 < 1 + (0.001 : ℝ) * (1 / s.radius) := by positivity
  nlinarith [mul_nonneg hpos.le hs]

/-- C18.  For every sphere `S` of radius `> 0` and every ray that `S.intersect`
reports as hitting `S` at `t`, with `hitPoint = origin + direction * t` and
`n = normalize(hitPoint - center)`: the secondary ray
`Ray(hitPoint + n * 0.001, reflect(ray.direction, n))` that `calculateColor`
builds is reported by `S.intersect` as no hit.  A reflective sphere never
reflects itself. -/
theorem reflection_ray_misses_own_sphere (s : Sphere) (ray : Ray) (t : ℝ)
    (hr : 0 < s.radius) (hhit : s.intersect ray = some t) :
    s.intersect (Ray.new (hitPoint ray t + normalAt ray t s * (0.001 : ℝ))
      (ray.direction.reflect (normalAt ray t s))) = none ∧
    s.intersect (reflectionRay ray t s) = none :=
  ⟨Sphere.intersect_reflectionRay_self hr hhit, Sphere.intersect_reflectionRay_self hr hhit⟩

/-- C18 at `redSphere` and `axisRay`: the hit is at `t = 4`, and the reflection
ray built there does not hit `redSphere`. -/
theorem reflection_ray_misses_own_sphere_witness :
    redSphere.intersect (reflectionRay axisRay 4 redSphere) = none :=
  (reflection_ray_misses_own_sphere redSphere axisRay 4 (by simp [redSphere, axisSphere])
    redSphere_intersect_axisRay).2

/-! ## C19: total internal reflection cannot occur -/

theorem nearestHit_intersect {scene : Scene} {ray : Ray} {T : ℝ} {i : ℕ} {s : Sphere}
    (h : nearestHit scene ray = (T, some (i, s))) : s.intersect ray = some T := by
  obtain ⟨-, -, h3⟩ := scanSpheres_spec ray scene.spheres 0 FLT_MAX none
  unfold nearestHit at h
  rcases h3 with h3 | ⟨k, s0, -, hsel0, hhit, -, -⟩
  · rw [h3] at h
    cases h
  · rw [h] at hsel0 hhit
    cases hsel0
    exact hhit

/-- The squared distance from the centre to the origin of the refraction ray:
`(radius - 0.001)²`. -/
theorem refraction_origin_dot {s : Sphere} {ray : Ray} {t : ℝ} (hr : 0 < s.radius)
    (hhit : s.intersect ray = some t) :
    ((hitPoint ray t - normalAt ray t s * (0.001 : ℝ)) - s.center).dot
        ((hitPoint ray t - normalAt ray t s * (0.001 : ℝ)) - s.center)
      = (s.radius - 0.001) * (s.radius - 0.001) := by
  rw [(normalAt_of_hit hr hhit).1]
  have hgen : ((hitPoint ray t - (hitPoint ray t - s.center) * (1 / s.radius) * (0.001 : ℝ))
        - s.center).dot
      ((hitPoint ray t - (hitPoint ray t - s.center) * (1 / s.radius) * (0.001 : ℝ))
        - s.center)
      = (1 - 0.001 * (1 / s.radius)) * (1 - 0.001 * (1 / s.radius))
        * (hitPoint ray t - s.center).dot (hitPoint ray t - s.center) := by
    simp only [Vec3.dot, Vec3.sub_x, Vec3.sub_y, Vec3.sub_z, Vec3.scale_x, Vec3.scale_y,
      Vec3.scale_z]
    ring
  rw [hgen, Sphere.hit_on_sphere hhit]
  field_simp

/-- C20, amended.  Over exact real arithmetic: for every sphere `S` of radius
`> 0.0005` and every ray that hits `S` at `hitPoint` with normal `n`, the origin
`hitPoint - n * 0.001` of the refraction ray lies strictly inside `S`;
`S.intersect` reports no hit for a ray from that origin whatever its direction,
in particular for the refraction ray `calculateColor` builds; so in every scene
the sphere the refraction call shades is never `S`, and when no other sphere is
hit its colour is the background. -/
theorem refraction_ray_misses_own_sphere (s : Sphere) (ray : Ray) (t : ℝ)
    (hr : s.radius > 0.0005) (hhit : s.intersect ray = some t) :
    ((hitPoint ray t - normalAt ray t s * (0.001 : ℝ)) - s.center).length < s.radius ∧
    (∀ dir : Vec3,
      s.intersect (Ray.new (hitPoint ray t - normalAt ray t s * (0.001 : ℝ)) dir) = none) ∧
    s.intersect (refractionRay ray t s) = none ∧
    (∀ (scene : Scene) (T : ℝ) (i : ℕ) (s' : Sphere),
      nearestHit scene (refractionRay ray t s) = (T, some (i, s')) → s' ≠ s) ∧
    (∀ (scene : Scene) (lightPos : Vec3) (depth : ℤ),
      (∀ s' ∈ scene.spheres, s' ≠ s → s'.intersect (refractionRay ray t s) = none) →
        calculateColor (refractionRay ray t s) scene lightPos depth = ⟨0.2, 0.2, 0.3⟩) := by
  have hr0 : 0 < s.radius := by
    have : (0 : ℝ) < 0.0005 := by norm_num
    linarith
  have hdot := refraction_origin_dot hr0 hhit
  have hlt : (s.radius - 0.001) * (s.radius - 0.001) < s.radius * s.radius := by
    have h5 : (0.0005 : ℝ) = 5 / 10000 := by norm_num
    have h1 : (0.001 : ℝ) = 1 / 1000 := by norm_num
    rw [h5] at hr
    rw [h1]
    nlinarith
  have hall : ∀ dir : Vec3,
      s.intersect (Ray.new (hitPoint ray t - normalAt ray t s * (0.001 : ℝ)) dir) = none := by
    intro dir
    apply Sphere.intersect_none_of_quadC_neg
    show ((hitPoint ray t - normalAt ray t s * (0.001 : ℝ)) - s.center).dot
        ((hitPoint ray t - normalAt ray t s * (0.001 : ℝ)) - s.center)
      - s.radius * s.radius < 0
    rw [hdot]
    linarith
  have hown : s.intersect (refractionRay ray t s) = none := hall _
  refine ⟨?_, hall, hown, ?_, ?_⟩
  · rw [Vec3.length_eq, hdot, Real.sqrt_lt' hr0]
    nlinarith
  · intro scene T i s' hsel heq
    have h1 := nearestHit_intersect hsel
    rw [heq, hown] at h1
    cases h1
  · intro scene lightPos depth hothers
    apply calculateColor_miss
    apply nearestHit_none_of_miss
    intro s' hs'
    by_cases heq : s' = s
    · rw [heq]
      exact hown
    · exact hothers s' hs' heq

/-- C20, amended, at `glassSphere` and `axisRay`: in exact arithmetic the
refraction ray built at the hit `t = 4` starts inside the sphere and does not
hit it. -/
theorem refraction_ray_misses_own_sphere_witness :
    glassSphere.intersect (refractionRay axisRay 4 glassSphere) = none :=
  (refraction_ray_misses_own_sphere glassSphere axisRay 4
    (by simp only [glassSphere, axisSphere]; norm_num) glassSphere_intersect_axisRay).2.2.1

/-! ## C15: colours are not negative -/

theorem Vec3.NonNeg.add {a b : Vec3} (ha : a.NonNeg) (hb : b.NonNeg) : (a + b).NonNeg :=
  ⟨add_nonneg ha.1 hb.1, add_nonneg ha.2.1 hb.2.1, add_nonneg ha.2.2 hb.2.2⟩

theorem Vec3.NonNeg.scale {a : Vec3} {k : ℝ} (ha : a.NonNeg) (hk : 0 ≤ k) : (a * k).NonNeg :=
  ⟨mul_nonneg ha.1 hk, mul_nonneg ha.2.1 hk, mul_nonneg ha.2.2 hk⟩

theorem background_nonNeg : background.NonNeg := by
  refine ⟨?_, ?_, ?_⟩ <;> simp only [background] <;> norm_num

theorem localColor_nonNeg (ray : Ray) (T : ℝ) (s : Sphere) (lightPos : Vec3)
    (hc : s.color.NonNeg) : (localColor ray T s lightPos).NonNeg := by
  unfold localColor
  refine Vec3.NonNeg.add (Vec3.NonNeg.add (hc.scale (by norm_num)) (hc.scale (le_max_left _ _)))
    (Vec3.NonNeg.scale ?_ (pow_nonneg (le_max_left _ _) 32))
  exact ⟨zero_le_one, zero_le_one, zero_le_one⟩

/-- A blend `a * (1 - r) + b * r` with `0 ≤ r ≤ 1` of colours without negative
channel has none. -/
theorem Vec3.NonNeg.blend {a b : Vec3} {r : ℝ} (ha : a.NonNeg) (hb : b.NonNeg) (h0 : 0 ≤ r)
    (h1 : r ≤ 1) : (a * (1 - r) + b * r).NonNeg :=
  (ha.scale (by linarith)).add (hb.scale h0)

theorem calculateColor_nonNeg (scene : Scene) (lightPos : Vec3)
    (hscene : ∀ s ∈ scene.spheres, s.color.NonNeg ∧ 0 ≤ s.reflectivity ∧ s.reflectivity ≤ 1) :
    ∀ (depth : ℤ) (ray : Ray), (calculateColor ray scene lightPos depth).NonNeg := by
  have hstep : ∀ d : ℤ,
      (d < 2 → ∀ ray : Ray, (calculateColor ray scene lightPos (d + 1)).NonNeg) →
      ∀ ray : Ray, (calculateColor ray scene lightPos d).NonNeg := by
    intro d hrec ray
    rcases hsel : nearestHit scene ray with ⟨T, _ | ⟨i, s⟩⟩
    · rw [calculateColor_miss _ _ _ _ (by rw [hsel])]
      exact background_nonNeg
    · obtain ⟨hc, h0, h1⟩ := hscene s (nearestHit_mem hsel)
      have hloc := localColor_nonNeg ray T s lightPos hc
      rw [calculateColor_hit _ _ _ _ T i s hsel]
      split_ifs with ha hb hc' hd' he
      · exact ((hloc.blend (hrec ha.1 _) h0 h1)).blend (hrec ha.1 _) h0 h1
      · exact hloc.blend (hrec ha.1 _) h0 h1
      · exact (hloc.blend (hrec ha.1 _) h0 h1)
      · exact hloc
      · exact hloc.blend (hrec he.1 _) h0 h1
      · exact hloc
  apply depth_induction
  · intro d hd
    exact hstep d (fun h => absurd h (by omega))
  · intro d hd ih
    exact hstep d (fun _ => ih)

theorem truncToInt_range {v : ℝ} (h0 : 0 ≤ v) (h1 : v ≤ 255) :
    0 ≤ truncToInt v ∧ truncToInt v ≤ 255 := by
  unfold truncToInt
  rw [if_pos h0]
  constructor
  · exact Int.floor_nonneg.mpr h0
  · have : ⌊v⌋ < 256 := by
      rw [Int.floor_lt]
      push_cast
      linarith
    omega

theorem toChannel_range {c : ℝ} (hc : 0 ≤ c) : 0 ≤ toChannel c ∧ toChannel c ≤ 255 := by
  unfold toChannel
  apply truncToInt_range
  · exact mul_nonneg (le_min zero_le_one hc) (by norm_num)
  · have : min 1 c ≤ 1 := min_le_left _ _
    linarith

/-- C15, amended.  Over exact real arithmetic, where no sum overflows: for every
scene in which every sphere has non-negative base-colour channels and
reflectivity in `[0, 1]`, and for every ray, light position and depth, each of
the three channels of the colour `calculateColor` returns is `≥ 0`; so each
serialised channel `(int)(min(1, c) * 255)` lies in `0..255`. -/
theorem calculateColor_channels_nonneg (scene : Scene) (ray : Ray) (lightPos : Vec3)
    (depth : ℤ)
    (hscene : ∀ s ∈ scene.spheres,
      (0 ≤ s.color.x ∧ 0 ≤ s.color.y ∧ 0 ≤ s.color.z) ∧
        0 ≤ s.reflectivity ∧ s.reflectivity ≤ 1) :
    (0 ≤ (calculateColor ray scene lightPos depth).x ∧
      0 ≤ (calculateColor ray scene lightPos depth).y ∧
      0 ≤ (calculateColor ray scene lightPos depth).z) ∧
    (0 ≤ toChannel (calculateColor ray scene lightPos depth).x ∧
      toChannel (calculateColor ray scene lightPos depth).x ≤ 255) ∧
    (0 ≤ toChannel (calculateColor ray scene lightPos depth).y ∧
      toChannel (calculateColor ray scene lightPos depth).y ≤ 255) ∧
    (0 ≤ toChannel (calculateColor ray scene lightPos depth).z ∧
      toChannel (calculateColor ray scene lightPos depth).z ≤ 255) := by
  have h := calculateColor_nonNeg scene lightPos hscene depth ray
  exact ⟨h, toChannel_range h.1, toChannel_range h.2.1, toChannel_range h.2.2⟩

theorem mainScene_materials :
    ∀ s ∈ mainScene.spheres,
      (0 ≤ s.color.x ∧ 0 ≤ s.color.y ∧ 0 ≤ s.color.z) ∧
        0 ≤ s.reflectivity ∧ s.reflectivity ≤ 1 := by
  intro s hs
  simp only [mainScene, Scene.addSphere, List.nil_append, List.cons_append, List.mem_cons,
    List.mem_singleton, List.not_mem_nil, or_false] at hs
  rcases hs with rfl | rfl | rfl <;> norm_num

/-- C15, amended, at the scene of `main` and `axisRay`: the colour has no
negative channel. -/
theorem calculateColor_channels_nonneg_witness :
    0 ≤ (calculateColor axisRay mainScene mainLight 0).x ∧
    0 ≤ (calculateColor axisRay mainScene mainLight 0).y ∧
    0 ≤ (calculateColor axisRay mainScene mainLight 0).z :=
  (calculateColor_channels_nonneg mainScene axisRay mainLight 0 mainScene_materials).1

/-! ## C16: background pixels -/

/-- Rows of equal length one after the other: entry `y * w + x` is entry `x` of
row `y`. -/
theorem rows_getElem? {α : Type} (g : ℕ → ℕ → α) (w : ℕ) :
    ∀ (h y x : ℕ), y < h → x < w →
      ((List.range h).flatMap fun y => (List.range w).map fun x => g y x)[y * w + x]?
        = some (g y x) := by
  have hlen : ∀ h : ℕ,
      ((List.range h).flatMap fun y => (List.range w).map fun x => g y x).length = h * w := by
    intro h
    induction h with
    | zero => simp
    | succ h ih =>
      rw [List.range_succ, List.flatMap_append, List.length_append, ih]
      simp [Nat.succ_mul]
  intro h
  induction h with
  | zero =>
    intro y x hy
    omega
  | succ h ih =>
    intro y x hy hx
    rw [List.range_succ, List.flatMap_append]
    by_cases hlt : y < h
    · have hidx : y * w + x < h * w := by
        have : (y + 1) * w ≤ h * w := Nat.mul_le_mul_right w hlt
        rw [Nat.succ_mul] at this
        omega
      rw [List.getElem?_append_left (by rw [hlen]; exact hidx)]
      exact ih y x hlt hx
    · have hy' : y = h := by omega
      subst hy'
      rw [List.getElem?_append_right (by rw [hlen]; omega), hlen]
      simp [hx]

/-- The buffer entry of pixel `(x, y)`. -/
theorem renderImage_getElem? (scene : Scene) (width height x y : ℕ) (hx : x < width)
    (hy : y < height) :
    (renderImage scene width height)[y * width + x]?
      = some (pixelColor scene width height x y) :=
  rows_getElem? (fun y x => pixelColor scene width height x y) width height y x hy hx

theorem toChannel_background_red : toChannel 0.2 = 51 := by
  unfold toChannel truncToInt
  have h : min (1 : ℝ) 0.2 * 255 = 51 := by
    rw [min_eq_right (by norm_num)]
    norm_num
  rw [h, if_pos (by norm_num)]
  rw [Int.floor_eq_iff]
  constructor <;> norm_num

theorem toChannel_background_blue : toChannel 0.3 = 76 := by
  unfold toChannel truncToInt
  have h : min (1 : ℝ) 0.3 * 255 = 76.5 := by
    rw [min_eq_right (by norm_num)]
    norm_num
  rw [h, if_pos (by norm_num)]
  rw [Int.floor_eq_iff]
  constructor <;> norm_num

/-- C16.  In `render`, for every pixel `(x, y)` of the image whose camera ray
hits no sphere, the stored colour is the background `(0.2, 0.2, 0.3)` and the
line written for it (entry `y * width + x` of the output) is exactly the integer
triple `(51, 51, 76)`, the conversion `(int)(min(1.0, channel) * 255)` of the
three channels. -/
theorem render_background_pixel (scene : Scene) (width height x y : ℕ) (hx : x < width)
    (hy : y < height)
    (hmiss : ∀ s ∈ scene.spheres, s.intersect (cameraRay width height x y) = none) :
    pixelColor scene width height x y = ⟨0.2, 0.2, 0.3⟩ ∧
    serializePixel (pixelColor scene width height x y) = (51, 51, 76) ∧
    (render scene width height)[y * width + x]? = some (51, 51, 76) := by
  have hcol : pixelColor scene width height x y = ⟨0.2, 0.2, 0.3⟩ :=
    calculateColor_miss _ scene mainLight 0 (nearestHit_none_of_miss hmiss)
  have hser : serializePixel (pixelColor scene width height x y) = (51, 51, 76) := by
    rw [hcol]
    simp only [serializePixel, toChannel_background_red, toChannel_background_blue]
  refine ⟨hcol, hser, ?_⟩
  unfold render
  rw [List.getElem?_map, renderImage_getElem? scene width height x y hx hy]
  simp only [Option.map_some', hser]

/-- A ray built by `Ray(o, raw)` whose line passes the sphere by reports no
hit: `dot(oc, raw)² < |raw|² (|oc|² - radius²)`. -/
theorem Sphere.intersect_new_none_of_lt (s : Sphere) (o raw : Vec3)
    (h : (o - s.center).dot raw ^ 2
      < raw.dot raw * ((o - s.center).dot (o - s.center) - s.radius * s.radius)) :
    s.intersect (Ray.new o raw) = none := by
  have hraw : 0 < raw.dot raw := by
    rcases lt_or_eq_of_le (Vec3.dot_self_nonneg raw) with h0 | h0
    · exact h0
    · rw [← h0] at h
      nlinarith [sq_nonneg ((o - s.center).dot raw)]
  have hL : 0 < raw.length := (Vec3.length_pos_iff raw).mpr hraw
  have hLL := Vec3.length_mul_self raw
  apply Sphere.intersect_eq_none_of_disc
  have hA : Sphere.quadA (Ray.new o raw) = 1 := Vec3.normalize_dot_self hraw
  have hB : Sphere.quadB s (Ray.new o raw) = 2 * ((1 / raw.length) * (o - s.center).dot raw) := by
    unfold Sphere.quadB Ray.new
    rw [Vec3.normalize_eq_scale, Vec3.dot_scale]
  have hC : Sphere.quadC s (Ray.new o raw)
      = (o - s.center).dot (o - s.center) - s.radius * s.radius := rfl
  unfold Sphere.discriminant
  rw [hA, hB, hC]
  have hinv : (1 / raw.length) * (1 / raw.length) * raw.dot raw = 1 := by
    rw [← hLL]
    field_simp
  have hi0 : 0 < (1 / raw.length) * (1 / raw.length) := by positivity
  nlinarith [mul_lt_mul_of_pos_left h hi0]

theorem cameraRay_corner : cameraRay 800 600 0 0 = Ray.new ⟨0, 0, 0⟩ ⟨-1, -1, -1⟩ := by
  unfold cameraRay
  norm_num

theorem mainScene_miss_corner :
    ∀ s ∈ mainScene.spheres, s.intersect (cameraRay 800 600 0 0) = none := by
  intro s hs
  rw [cameraRay_corner]
  simp only [mainScene, Scene.addSphere, List.nil_append, List.cons_append, List.mem_cons,
    List.mem_singleton, List.not_mem_nil, or_false] at hs
  rcases hs with rfl | rfl | rfl <;>
  · apply Sphere.intersect_new_none_of_lt
    simp only [Vec3.dot, Vec3.sub_x, Vec3.sub_y, Vec3.sub_z]
    norm_num

/-- C16 at the scene of `main`, 800 x 600: the camera ray of the corner pixel
`(0, 0)` misses the three spheres and the first line written is `51 51 76`. -/
theorem render_background_pixel_witness :
    (render mainScene 800 600)[0 * 800 + 0]? = some (51, 51, 76) :=
  (render_background_pixel mainScene 800 600 0 0 (by norm_num) (by norm_num)
    mainScene_miss_corner).2.2

/-! ## C17: the centre pixel of `main` -/

theorem mainScene_spheres : mainScene.spheres = [redSphere, greenSphere, blueSphere] := rfl

/-- The camera ray of pixel `(400, 300)` is `centerRay u` for the inverse length
`u` of `(1/799, 1/599, -1)`. -/
theorem cameraRay_center :
    ∃ u : ℝ, 0 < u ∧ u ≤ 1 ∧ u * u * (1 / 799 ^ 2 + 1 / 599 ^ 2 + 1) = 1 ∧
      cameraRay 800 600 400 300 = centerRay u := by
  have hraw : cameraRay 800 600 400 300 = Ray.new ⟨0, 0, 0⟩ ⟨1 / 799, 1 / 599, -1⟩ := by
    unfold cameraRay
    norm_num
  have hdot : (⟨1 / 799, 1 / 599, -1⟩ : Vec3).dot ⟨1 / 799, 1 / 599, -1⟩
      = 1 / 799 ^ 2 + 1 / 599 ^ 2 + 1 := by
    simp only [Vec3.dot]
    ring
  have hLL := Vec3.length_mul_self (⟨1 / 799, 1 / 599, -1⟩ : Vec3)
  rw [hdot] at hLL
  have hL1 : 1 ≤ (⟨1 / 799, 1 / 599, -1⟩ : Vec3).length := by
    rw [Vec3.length_eq, hdot, Real.one_le_sqrt]
    norm_num
  have hL0 : 0 < (⟨1 / 799, 1 / 599, -1⟩ : Vec3).length := by linarith
  refine ⟨1 / (⟨1 / 799, 1 / 599, -1⟩ : Vec3).length, one_div_pos.mpr hL0, ?_, ?_, ?_⟩
  · rw [div_le_one hL0]
    exact hL1
  · rw [← hLL]
    field_simp
  · rw [hraw]
    unfold Ray.new centerRay
    rw [Vec3.normalize_eq_scale]
    congr 1
    apply Vec3.ext
    · rfl
    · rfl
    · show -1 * (1 / (⟨1 / 799, 1 / 599, -1⟩ : Vec3).length)
        = -(1 / (⟨1 / 799, 1 / 599, -1⟩ : Vec3).length)
      ring

/-- A ray that approaches a sphere from outside, with a non-negative
discriminant, hits it at the near root. -/
theorem Sphere.intersect_of_approach {s : Sphere} {ray : Ray} (ha : 0 < Sphere.quadA ray)
    (hb : Sphere.quadB s ray < 0) (hc : 0 < Sphere.quadC s ray)
    (hD : 0 ≤ Sphere.discriminant s ray) :
    s.intersect ray = some (Sphere.nearRoot s ray) := by
  apply Sphere.intersect_eq_some_of (not_lt.mpr hD)
  have hlt : Real.sqrt (Sphere.discriminant s ray) < -Sphere.quadB s ray := by
    rw [Real.sqrt_lt' (by linarith)]
    unfold Sphere.discriminant
    nlinarith [mul_pos ha hc]
  unfold Sphere.nearRoot
  apply div_pos <;> linarith

theorem centerRay_quadA {u : ℝ} (hu : u * u * (1 / 799 ^ 2 + 1 / 599 ^ 2 + 1) = 1) :
    Sphere.quadA (centerRay u) = 1 := by
  simp only [Sphere.quadA, centerRay, Vec3.dot]
  linear_combination hu

theorem centerRay_usq {u : ℝ} (hu : u * u * (1 / 799 ^ 2 + 1 / 599 ^ 2 + 1) = 1) :
    99 / 100 ≤ u * u := by
  have h : (1 / 799 ^ 2 + 1 / 599 ^ 2 + 1 : ℝ) ≤ 101 / 100 := by norm_num
  nlinarith [mul_self_nonneg u]

theorem centerRay_red_disc {u : ℝ} :
    Sphere.discriminant redSphere (centerRay u)
      = 4 * (Sphere.quadA (centerRay u) * (1 - 25) + 25 * u * u)
    ∧ Sphere.quadB redSphere (centerRay u) = -(10 * u)
    ∧ Sphere.quadC redSphere (centerRay u) = 24 := by
  refine ⟨?_, ?_, ?_⟩
  · simp only [Sphere.discriminant, Sphere.quadA, Sphere.quadB, Sphere.quadC, centerRay,
      redSphere, axisSphere, Vec3.dot, Vec3.sub_x, Vec3.sub_y, Vec3.sub_z]
    ring
  · simp only [Sphere.quadB, centerRay, redSphere, axisSphere, Vec3.dot, Vec3.sub_x,
      Vec3.sub_y, Vec3.sub_z]
    ring
  · simp only [Sphere.quadC, centerRay, redSphere, axisSphere, Vec3.dot, Vec3.sub_x,
      Vec3.sub_y, Vec3.sub_z]
    norm_num

/-- The camera ray of the centre pixel hits the red sphere; the discriminant is
at least 1 and the hit distance at most 5. -/
theorem centerRay_hits_red {u : ℝ} (hu0 : 0 < u) (hu1 : u ≤ 1)
    (hu : u * u * (1 / 799 ^ 2 + 1 / 599 ^ 2 + 1) = 1) :
    redSphere.intersect (centerRay u) = some (Sphere.nearRoot redSphere (centerRay u)) ∧
    1 ≤ Real.sqrt (Sphere.discriminant redSphere (centerRay u)) ∧
    0 < Sphere.nearRoot redSphere (centerRay u) ∧
    Sphere.nearRoot redSphere (centerRay u) ≤ 5 := by
  obtain ⟨hD, hB, hC⟩ := @centerRay_red_disc u
  have hA := centerRay_quadA hu
  have hsq := centerRay_usq hu
  rw [hA] at hD
  have hD1 : 1 ≤ Sphere.discriminant redSphere (centerRay u) := by
    rw [hD]
    nlinarith
  have hhit : redSphere.intersect (centerRay u)
      = some (Sphere.nearRoot redSphere (centerRay u)) :=
    Sphere.intersect_of_approach (by rw [hA]; norm_num) (by rw [hB]; linarith)
      (by rw [hC]; norm_num) (by linarith)
  obtain ⟨-, -, hpos, hlin⟩ := Sphere.hit_linear hhit
  have hs1 : 1 ≤ Real.sqrt (Sphere.discriminant redSphere (centerRay u)) :=
    Real.one_le_sqrt.mpr hD1
  refine ⟨hhit, hs1, hpos, ?_⟩
  rw [hA, hB] at hlin
  linarith

theorem centerRay_misses_green {u : ℝ}
    (hu : u * u * (1 / 799 ^ 2 + 1 / 599 ^ 2 + 1) = 1) :
    greenSphere.intersect (centerRay u) = none := by
  apply Sphere.intersect_eq_none_of_disc
  have hA := centerRay_quadA hu
  have hD : Sphere.discriminant greenSphere (centerRay u)
      = 4 * ((5 + 2 / 799) ^ 2 * (u * u) - Sphere.quadA (centerRay u) * 28) := by
    simp only [Sphere.discriminant, Sphere.quadA, Sphere.quadB, Sphere.quadC, centerRay,
      greenSphere, Vec3.dot, Vec3.sub_x, Vec3.sub_y, Vec3.sub_z]
    ring
  rw [hD, hA]
  have : u * u ≤ 1 := by nlinarith [mul_self_nonneg u, mul_self_nonneg (1 - u)]
  nlinarith

theorem centerRay_misses_blue {u : ℝ}
    (hu : u * u * (1 / 799 ^ 2 + 1 / 599 ^ 2 + 1) = 1) :
    blueSphere.intersect (centerRay u) = none := by
  apply Sphere.intersect_eq_none_of_disc
  have hA := centerRay_quadA hu
  have hD : Sphere.discriminant blueSphere (centerRay u)
      = 4 * ((5 - 2 / 799) ^ 2 * (u * u) - Sphere.quadA (centerRay u) * 28) := by
    simp only [Sphere.discriminant, Sphere.quadA, Sphere.quadB, Sphere.quadC, centerRay,
      blueSphere, Vec3.dot, Vec3.sub_x, Vec3.sub_y, Vec3.sub_z]
    ring
  rw [hD, hA]
  have : u * u ≤ 1 := by nlinarith [mul_self_nonneg u]
  nlinarith

theorem nearestHit_centerRay {u : ℝ} (hu0 : 0 < u) (hu1 : u ≤ 1)
    (hu : u * u * (1 / 799 ^ 2 + 1 / 599 ^ 2 + 1) = 1) :
    nearestHit mainScene (centerRay u)
      = (Sphere.nearRoot redSphere (centerRay u), some (0, redSphere)) := by
  obtain ⟨hhit, -, -, h5⟩ := centerRay_hits_red hu0 hu1 hu
  show scanSpheres _ [redSphere, greenSphere, blueSphere] 0 (FLT_MAX, none) = _
  rw [scanSpheres_cons_hit _ _ _ hhit (by simp only [FLT_MAX]; linarith),
    scanSpheres_cons_none _ _ _ (centerRay_misses_green hu),
    scanSpheres_cons_none _ _ _ (centerRay_misses_blue hu)]
  rfl
/-- The component of the reflection ray's origin, seen from another centre
`C'`, along the reflected direction. -/
theorem reflect_offset_dot_other (P C C' d : Vec3) (k e : ℝ)
    (hk : k * k * (P - C).dot (P - C) = 1) :
    ((P + ((P - C) * k) * e) - C').dot (d.reflect ((P - C) * k))
      = -(1 + e * k) * (P - C).dot d
        + ((C - C').dot d - 2 * (k * (P - C).dot d) * (k * (C - C').dot (P - C))) := by
  have hsplit : ((P + ((P - C) * k) * e) - C').dot (d.reflect ((P - C) * k))
      = ((P + ((P - C) * k) * e) - C).dot (d.reflect ((P - C) * k))
        + ((C - C').dot d - 2 * (k * (P - C).dot d) * (k * (C - C').dot (P - C))) := by
    simp only [Vec3.reflect, Vec3.dot, Vec3.add_x, Vec3.add_y, Vec3.add_z, Vec3.sub_x,
      Vec3.sub_y, Vec3.sub_z, Vec3.scale_x, Vec3.scale_y, Vec3.scale_z]
    ring
  rw [hsplit, reflect_offset_dot P C d k e hk]

/-- Facts about the hit of the centre ray on the red sphere: the hit point has
small non-negative `x` and `y`, and the ray enters the sphere steeply. -/
theorem centerRay_hit_facts {u : ℝ} (hu0 : 0 < u) (hu1 : u ≤ 1)
    (hu : u * u * (1 / 799 ^ 2 + 1 / 599 ^ 2 + 1) = 1) :
    let t := Sphere.nearRoot redSphere (centerRay u)
    let P := hitPoint (centerRay u) t
    (0 ≤ P.x ∧ P.x ≤ 5 / 799) ∧ (0 ≤ P.y ∧ P.y ≤ 5 / 599) ∧
    (P - redSphere.center).dot (centerRay u).direction ≤ -(1 / 2) ∧
    (P - redSphere.center).dot (P - redSphere.center) = 1 ∧
    normalAt (centerRay u) t redSphere = (P - redSphere.center) * (1 / 1 : ℝ) := by
  intro t P
  obtain ⟨hhit, hs1, hpos, h5⟩ := centerRay_hits_red hu0 hu1 hu
  have hPx : P.x = 1 / 799 * u * t := by
    show (0 : ℝ) + 1 / 799 * u * t = 1 / 799 * u * t
    ring
  have hPy : P.y = 1 / 599 * u * t := by
    show (0 : ℝ) + 1 / 599 * u * t = 1 / 599 * u * t
    ring
  have hut0 : 0 ≤ u * t := mul_nonneg hu0.le hpos.le
  have hut5 : u * t ≤ 5 := by nlinarith
  have hr1 : redSphere.radius = 1 := rfl
  have hsph := Sphere.hit_on_sphere hhit
  rw [hr1] at hsph
  have hn := (normalAt_of_hit (by rw [hr1]; norm_num) hhit).1
  rw [hr1] at hn
  refine ⟨⟨?_, ?_⟩, ⟨?_, ?_⟩, ?_, ?_, hn⟩
  · rw [hPx]
    nlinarith
  · rw [hPx]
    nlinarith
  · rw [hPy]
    nlinarith
  · rw [hPy]
    nlinarith
  · rw [Sphere.hit_dot_direction hhit]
    linarith
  · rw [hsph]
    norm_num

/-- The reflection ray built at the centre pixel's hit misses the three spheres
of `main`. -/
theorem centerRay_reflection_misses {u : ℝ} (hu0 : 0 < u) (hu1 : u ≤ 1)
    (hu : u * u * (1 / 799 ^ 2 + 1 / 599 ^ 2 + 1) = 1) :
    ∀ s ∈ mainScene.spheres,
      s.intersect (reflectionRay (centerRay u)
        (Sphere.nearRoot redSphere (centerRay u)) redSphere) = none := by
  obtain ⟨hhit, -, -, -⟩ := centerRay_hits_red hu0 hu1 hu
  obtain ⟨⟨hx0, hx5⟩, -, hq, hsph, hn⟩ := centerRay_hit_facts hu0 hu1 hu
  have hk : (1 / 1 : ℝ) * (1 / 1)
      * (hitPoint (centerRay u) (Sphere.nearRoot redSphere (centerRay u))
          - redSphere.center).dot
        (hitPoint (centerRay u) (Sphere.nearRoot redSphere (centerRay u))
          - redSphere.center) = 1 := by
    rw [hsph]
    norm_num
  have hdx : (centerRay u).direction.x = 1 / 799 * u := rfl
  have hwx : (hitPoint (centerRay u) (Sphere.nearRoot redSphere (centerRay u))
      - redSphere.center).x
      = (hitPoint (centerRay u) (Sphere.nearRoot redSphere (centerRay u))).x := by
    show _ - (0 : ℝ) = _
    ring
  intro s hs
  rw [mainScene_spheres] at hs
  simp only [List.mem_cons, List.mem_singleton, List.not_mem_nil, or_false] at hs
  rcases hs with rfl | rfl | rfl
  · exact Sphere.intersect_reflectionRay_self (by show (0 : ℝ) < 1; norm_num) hhit
  · apply Sphere.intersect_none_of_quadB_nonneg
    show 0 ≤ Sphere.quadB greenSphere (Ray.new _ _)
    apply Sphere.quadB_new_nonneg
    rw [hn, reflect_offset_dot_other _ _ _ _ _ _ hk]
    have hC : (redSphere.center - greenSphere.center).dot (centerRay u).direction
        = -2 * (1 / 799 * u) := by
      simp only [Vec3.dot, Vec3.sub_x, Vec3.sub_y, Vec3.sub_z, redSphere, axisSphere,
        greenSphere, centerRay]
      ring
    have hCw : (redSphere.center - greenSphere.center).dot
        (hitPoint (centerRay u) (Sphere.nearRoot redSphere (centerRay u)) - redSphere.center)
        = -2 * (hitPoint (centerRay u) (Sphere.nearRoot redSphere (centerRay u))).x := by
      rw [← hwx]
      simp only [Vec3.dot, Vec3.sub_x, Vec3.sub_y, Vec3.sub_z, redSphere, axisSphere,
        greenSphere]
      ring
    rw [hC, hCw]
    nlinarith [mul_nonneg hx0 (by linarith : (0 : ℝ) ≤ -(1 / 2)
      - (hitPoint (centerRay u) (Sphere.nearRoot redSphere (centerRay u))
          - redSphere.center).dot (centerRay u).direction)]
  · apply Sphere.intersect_none_of_quadB_nonneg
    show 0 ≤ Sphere.quadB blueSphere (Ray.new _ _)
    apply Sphere.quadB_new_nonneg
    rw [hn, reflect_offset_dot_other _ _ _ _ _ _ hk]
    have hC : (redSphere.center - blueSphere.center).dot (centerRay u).direction
        = 2 * (1 / 799 * u) := by
      simp only [Vec3.dot, Vec3.sub_x, Vec3.sub_y, Vec3.sub_z, redSphere, axisSphere,
        blueSphere, centerRay]
      ring
    have hCw : (redSphere.center - blueSphere.center).dot
        (hitPoint (centerRay u) (Sphere.nearRoot redSphere (centerRay u)) - redSphere.center)
        = 2 * (hitPoint (centerRay u) (Sphere.nearRoot redSphere (centerRay u))).x := by
      rw [← hwx]
      simp only [Vec3.dot, Vec3.sub_x, Vec3.sub_y, Vec3.sub_z, redSphere, axisSphere,
        blueSphere]
      ring
    rw [hC, hCw]
    nlinarith [mul_nonneg hx0 (by linarith : (0 : ℝ) ≤ -(1 / 2)
      - (hitPoint (centerRay u) (Sphere.nearRoot redSphere (centerRay u))
          - redSphere.center).dot (centerRay u).direction)]
/-- At the centre pixel's hit the light `(5, 5, -5)` is behind the tangent
plane: the diffuse factor is `0`. -/
theorem centerRay_diffuse_zero {u : ℝ} (hu0 : 0 < u) (hu1 : u ≤ 1)
    (hu : u * u * (1 / 799 ^ 2 + 1 / 599 ^ 2 + 1) = 1) :
    max 0 ((normalAt (centerRay u) (Sphere.nearRoot redSphere (centerRay u)) redSphere).dot
      (lightDirAt (centerRay u) (Sphere.nearRoot redSphere (centerRay u)) mainLight)) = 0 := by
  obtain ⟨⟨hx0, hx5⟩, ⟨hy0, hy5⟩, -, hsph, hn⟩ := centerRay_hit_facts hu0 hu1 hu
  apply max_eq_left
  rw [hn]
  unfold lightDirAt
  rw [Vec3.normalize_eq_scale, Vec3.scale_dot, Vec3.dot_scale]
  have hsplit : (hitPoint (centerRay u) (Sphere.nearRoot redSphere (centerRay u))
        - redSphere.center).dot
      (mainLight - hitPoint (centerRay u) (Sphere.nearRoot redSphere (centerRay u)))
      = 5 * (hitPoint (centerRay u) (Sphere.nearRoot redSphere (centerRay u))).x
        + 5 * (hitPoint (centerRay u) (Sphere.nearRoot redSphere (centerRay u))).y
        - (hitPoint (centerRay u) (Sphere.nearRoot redSphere (centerRay u))
            - redSphere.center).dot
          (hitPoint (centerRay u) (Sphere.nearRoot redSphere (centerRay u))
            - redSphere.center) := by
    simp only [Vec3.dot, Vec3.sub_x, Vec3.sub_y, Vec3.sub_z, redSphere, axisSphere, mainLight]
    ring
  rw [hsplit, hsph]
  have hL : 0 ≤ 1 / (mainLight
      - hitPoint (centerRay u) (Sphere.nearRoot redSphere (centerRay u))).length := by
    rw [Vec3.length_eq]
    exact one_div_nonneg.mpr (Real.sqrt_nonneg _)
  have hneg : 5 * (hitPoint (centerRay u) (Sphere.nearRoot redSphere (centerRay u))).x
      + 5 * (hitPoint (centerRay u) (Sphere.nearRoot redSphere (centerRay u))).y - 1 ≤ 0 := by
    have h1 : (5 : ℝ) * (5 / 799) + 5 * (5 / 599) - 1 ≤ 0 := by norm_num
    linarith
  have := mul_nonpos_of_nonneg_of_nonpos hL hneg
  linarith

/-- The colour of the centre ray: the red sphere lit by its ambient term and
the specular term `σ`, blended half and half with the background its reflection
ray sees. -/
theorem centerRay_color {u : ℝ} (hu0 : 0 < u) (hu1 : u ≤ 1)
    (hu : u * u * (1 / 799 ^ 2 + 1 / 599 ^ 2 + 1) = 1) :
    ∃ σ : ℝ, 0 ≤ σ ∧
      calculateColor (centerRay u) mainScene mainLight 0
        = ⟨0.15 + σ / 2, 0.1 + σ / 2, 0.15 + σ / 2⟩ := by
  have hsel := nearestHit_centerRay hu0 hu1 hu
  have hrefl : calculateColor
      (reflectionRay (centerRay u) (Sphere.nearRoot redSphere (centerRay u)) redSphere)
      mainScene mainLight (0 + 1) = background :=
    calculateColor_miss _ _ _ _ (nearestHit_none_of_miss (centerRay_reflection_misses hu0 hu1 hu))
  have hdiff := centerRay_diffuse_zero hu0 hu1 hu
  have hri : ¬ ((0 : ℤ) < 2 ∧ redSphere.refractiveIndex > 1) := by
    intro h
    have : redSphere.refractiveIndex = 1 := rfl
    rw [this] at h
    exact lt_irrefl _ h.2
  have hr : (0 : ℤ) < 2 ∧ redSphere.reflectivity > 0 := by
    refine ⟨by norm_num, ?_⟩
    show (0.5 : ℝ) > 0
    norm_num
  refine ⟨(max 0 ((viewDirAt (centerRay u) (Sphere.nearRoot redSphere (centerRay u))).dot
      ((lightDirAt (centerRay u) (Sphere.nearRoot redSphere (centerRay u)) mainLight).reflect
        (normalAt (centerRay u) (Sphere.nearRoot redSphere (centerRay u)) redSphere)))) ^ 32,
    pow_nonneg (le_max_left _ _) 32, ?_⟩
  rw [calculateColor_hit _ _ _ _ _ 0 redSphere hsel, if_neg hri, if_pos hr, hrefl]
  unfold localColor
  simp only [hdiff]
  have hrv : redSphere.reflectivity = 0.5 := rfl
  have hcol : redSphere.color = ⟨1, 0, 0⟩ := rfl
  rw [hrv, hcol]
  apply Vec3.ext
  · simp only [Vec3.add_x, Vec3.scale_x, background]
    norm_num
    ring
  · simp only [Vec3.add_y, Vec3.scale_y, background]
    norm_num
    ring
  · simp only [Vec3.add_z, Vec3.scale_z, background]
    norm_num
    ring

/-- C17 fails as stated: for the camera ray of pixel `(400, 300)` of the scene of
`main`, the red channel of the colour `calculateColor` returns does not exceed
the blue channel.  The light is behind the tangent plane at the hit, so the red
sphere contributes only its ambient term `0.1`, and
`0.1 * 0.5 + 0.2 * 0.5 = 0.3 * 0.5`. -/
theorem center_pixel_red_not_above_blue :
    (calculateColor (cameraRay 800 600 400 300) mainScene mainLight 0).x
      ≤ (calculateColor (cameraRay 800 600 400 300) mainScene mainLight 0).z := by
  obtain ⟨u, hu0, hu1, hu, hray⟩ := cameraRay_center
  obtain ⟨σ, -, hcol⟩ := centerRay_color hu0 hu1 hu
  rw [hray, hcol]

/-- C17, amended.  In the scenario of `main` (unit spheres at `(0, 0, -5)` red,
`(2, 0, -5)` green with refractive index `1.5`, `(-2, 0, -5)` blue, reflectivity
`0.5`, light `(5, 5, -5)`, 800 x 600, eye at the origin): the camera ray of pixel
`(400, 300)` has the red sphere, the first of the scene, as its nearest hit; the
colour `calculateColor` returns for it differs from the background; its red
channel exceeds its green channel by `0.05` and equals its blue channel. -/
theorem center_pixel_red_sphere :
    (nearestHit mainScene (cameraRay 800 600 400 300)).2 = some (0, redSphere) ∧
    redSphere = ⟨⟨0, 0, -5⟩, 1, ⟨1, 0, 0⟩, 0.5, 1⟩ ∧
    calculateColor (cameraRay 800 600 400 300) mainScene mainLight 0 ≠ ⟨0.2, 0.2, 0.3⟩ ∧
    (calculateColor (cameraRay 800 600 400 300) mainScene mainLight 0).x
      = (calculateColor (cameraRay 800 600 400 300) mainScene mainLight 0).y + 0.05 ∧
    (calculateColor (cameraRay 800 600 400 300) mainScene mainLight 0).x
      = (calculateColor (cameraRay 800 600 400 300) mainScene mainLight 0).z := by
  obtain ⟨u, hu0, hu1, hu, hray⟩ := cameraRay_center
  obtain ⟨σ, -, hcol⟩ := centerRay_color hu0 hu1 hu
  rw [hray, hcol, nearestHit_centerRay hu0 hu1 hu]
  refine ⟨rfl, rfl, ?_, ?_, rfl⟩
  · intro h
    have hx := congrArg Vec3.x h
    have hy := congrArg Vec3.y h
    simp only at hx hy
    norm_num at hx hy
    linarith
  · show (0.15 : ℝ) + σ / 2 = 0.1 + σ / 2 + 0.05
    norm_num
    ring

/-! ## binary32: the arithmetic -/

set_option maxRecDepth 100000
set_option exponentiation.threshold 20000

theorem F32.bitLenLoop_spec :
    ∀ (fuel n : ℕ), n ≤ fuel →
      (n = 0 → F32.bitLenLoop fuel n = 0) ∧
      (n ≠ 0 → 2 ^ (F32.bitLenLoop fuel n - 1) ≤ n ∧ n < 2 ^ F32.bitLenLoop fuel n) := by
  intro fuel
  induction fuel with
  | zero =>
    intro n hn
    have h0 : n = 0 := by omega
    subst h0
    exact ⟨fun _ => rfl, fun h => absurd rfl h⟩
  | succ fuel ih =>
    intro n hn
    constructor
    · intro h0
      simp [F32.bitLenLoop, h0]
    · intro hne
      have hstep : F32.bitLenLoop (fuel + 1) n = F32.bitLenLoop fuel (n / 2) + 1 := by
        simp [F32.bitLenLoop, hne]
      rw [hstep]
      have hle : n / 2 ≤ fuel := by omega
      obtain ⟨hz, hnz⟩ := ih (n / 2) hle
      by_cases h2 : n / 2 = 0
      · rw [hz h2]
        have : n = 1 := by omega
        subst this
        norm_num
      · obtain ⟨hlo, hhi⟩ := hnz h2
        have hpos : 1 ≤ F32.bitLenLoop fuel (n / 2) := by
          by_contra hcon
          have : F32.bitLenLoop fuel (n / 2) = 0 := by omega
          rw [this] at hhi
          omega
        have hpow : 2 ^ F32.bitLenLoop fuel (n / 2)
            = 2 * 2 ^ (F32.bitLenLoop fuel (n / 2) - 1) := by
          rw [← pow_succ']
          congr 1
          omega
        constructor
        · rw [Nat.add_sub_cancel, hpow]
          omega
        · rw [pow_succ]
          omega

/-- The function `bitLen` counts the binary digits: `2^(bitLen n - 1) ≤ n < 2^bitLen n`. -/
theorem F32.bitLen_spec (n : ℕ) (hn : n ≠ 0) :
    2 ^ (F32.bitLen n - 1) ≤ n ∧ n < 2 ^ F32.bitLen n :=
  (F32.bitLenLoop_spec n n (le_refl n)).2 hn

theorem F32.isqrtLoop_spec (n : ℕ) :
    ∀ (i r : ℕ), r * r ≤ n → n < (r + 2 ^ i) * (r + 2 ^ i) →
      F32.isqrtLoop n i r * F32.isqrtLoop n i r ≤ n ∧
      n < (F32.isqrtLoop n i r + 1) * (F32.isqrtLoop n i r + 1) := by
  intro i
  induction i with
  | zero =>
    intro r h1 h2
    simpa [F32.isqrtLoop] using And.intro h1 h2
  | succ i ih =>
    intro r h1 h2
    unfold F32.isqrtLoop
    by_cases hc : (r + 2 ^ i) * (r + 2 ^ i) ≤ n
    · rw [if_pos hc]
      apply ih _ hc
      have : r + 2 ^ i + 2 ^ i = r + 2 ^ (i + 1) := by
        rw [pow_succ]
        omega
      rw [this]
      exact h2
    · rw [if_neg hc]
      exact ih r h1 (not_le.mp hc)

/-- The function `isqrt` is the integer square root. -/
theorem F32.isqrt_spec (n : ℕ) :
    F32.isqrt n * F32.isqrt n ≤ n ∧ n < (F32.isqrt n + 1) * (F32.isqrt n + 1) := by
  unfold F32.isqrt
  apply F32.isqrtLoop_spec n _ 0 (Nat.zero_le n)
  rw [Nat.zero_add, ← pow_add]
  by_cases hn : n = 0
  · subst hn
    positivity
  · have h := (F32.bitLen_spec n hn).2
    refine lt_of_lt_of_le h (Nat.pow_le_pow_right (by norm_num) ?_)
    omega

/-- The arithmetic reproduces known binary32 values: the literals `0.1f`,
`0.001f`, `0.2f`, `0.3f`, `1`, the rounded `sqrt(2)` and `1/3`, the largest
finite value and the overflow to infinity. -/
theorem F32.known_values :
    F32.lit 1 10 = F32.ofBits 0x3dcccccd ∧
    F32.lit 1 1000 = F32.ofBits 0x3a83126f ∧
    F32.lit 2 10 = F32.ofBits 0x3e4ccccd ∧
    F32.lit 3 10 = F32.ofBits 0x3e99999a ∧
    F32.ofNat 1 = F32.ofBits 0x3f800000 ∧
    F32.sqrt (F32.ofNat 2) = F32.ofBits 0x3fb504f3 ∧
    F32.div (F32.ofNat 1) (F32.ofNat 3) = F32.ofBits 0x3eaaaaab ∧
    F32.FLT_MAX = F32.ofBits 0x7f7fffff ∧
    F32.add F32.FLT_MAX F32.FLT_MAX = F32.ofBits 0x7f800000 ∧
    F32.mul (F32.ofBits 0x7f800000) (F32.ofNat 0) = F32.nan := by
  decide
/-! ## binary32: the claims that exact arithmetic alone supports -/

theorem F32.toReal_finite_pos (k : ℕ) : F32.toReal (F32.finite false k) = (k : ℝ) / 2 ^ 149 := rfl

theorem F32.toReal_finite_neg (k : ℕ) : F32.toReal (F32.finite true k) = -((k : ℝ) / 2 ^ 149) :=
  rfl

theorem B32.nearSurface_eq :
    B32.nearSurface = ⟨F32.finite true (4671155 * 2 ^ 126), F32.finite false (6597155 * 2 ^ 126),
      F32.finite true (8968033 * 2 ^ 124)⟩ := by
  decide

theorem B32.unitSphere_eq :
    B32.unitSphere.center = ⟨F32.finite false 0, F32.finite false 0, F32.finite false 0⟩ ∧
    B32.unitSphere.radius = F32.finite false (2 ^ 149) := by
  decide

/-- C9 fails as stated, on the code's binary32 arithmetic.  The origin with the
bits `bf0e8d66 3f495446 be88d761` is strictly inside the unit sphere at
`(0, 0, 0)` (its exact distance from the centre is `0.9999999996`), the radius is
positive and the direction `-origin` is not zero; rt.cpp 67-75 computes
`oc.dot(oc) = 1.00000012`, `c = 1.19e-7`, `discriminant = 4.0000005` and reports a
hit at `t = 1.19e-7` (bits `33fffffe`). -/
theorem binary32_hit_from_inside :
    (B32.nearSurface.toReal - B32.unitSphere.center.toReal).length
      < F32.toReal B32.unitSphere.radius ∧
    0 < F32.toReal B32.unitSphere.radius ∧
    (B32.Ray.new B32.nearSurface B32.towardsCenter).direction = B32.towardsCenter ∧
    B32.Sphere.intersect B32.unitSphere (B32.Ray.new B32.nearSurface B32.towardsCenter)
      = some (F32.ofBits 0x33fffffe) := by
  refine ⟨?_, ?_, by decide, by decide⟩
  · rw [B32.nearSurface_eq, B32.unitSphere_eq.1, B32.unitSphere_eq.2]
    simp only [B32.Vec3.toReal, F32.toReal_finite_pos, F32.toReal_finite_neg, Vec3.length,
      Vec3.sub_x, Vec3.sub_y, Vec3.sub_z]
    rw [Real.sqrt_lt' (by norm_num)]
    norm_num
  · rw [B32.unitSphere_eq.2, F32.toReal_finite_pos]
    norm_num
theorem B32.offsetRay_eq :
    B32.offsetRay = ⟨⟨F32.finite false (2 * 2 ^ 149), F32.finite false 0, F32.finite false 0⟩,
      ⟨F32.finite false 0, F32.finite false 0, F32.finite true (2 ^ 149)⟩⟩ := by
  decide

theorem B32.farSphere_eq :
    B32.farSphere.center
      = ⟨F32.finite false 0, F32.finite false 0, F32.finite true (10000 * 2 ^ 149)⟩ ∧
    B32.farSphere.radius = F32.finite false (2 ^ 149) := by
  decide

/-- C11 fails as stated, on the code's binary32 arithmetic.  The ray
`Ray(Vec3(2, 0, 0), Vec3(0, 0, -1))` has a unit direction and passes the unit
sphere at `(0, 0, -10000)` at perpendicular distance `2 > 1`; rt.cpp 70-75
computes `c = 1e8` (the `4` of `oc.dot(oc) = 100000004` is rounded away),
`discriminant = 0` and reports a hit at `t = 10000`. -/
theorem binary32_hit_beside :
    B32.offsetRay.direction.toReal.dot B32.offsetRay.direction.toReal = 1 ∧
    Real.sqrt ((B32.offsetRay.origin.toReal - B32.farSphere.center.toReal).dot
        (B32.offsetRay.origin.toReal - B32.farSphere.center.toReal)
      - (B32.offsetRay.origin.toReal - B32.farSphere.center.toReal).dot
          B32.offsetRay.direction.toReal ^ 2)
      > F32.toReal B32.farSphere.radius ∧
    0 < F32.toReal B32.farSphere.radius ∧
    B32.Sphere.intersect B32.farSphere B32.offsetRay = some (F32.ofNat 10000) := by
  refine ⟨?_, ?_, ?_, by decide⟩
  · rw [B32.offsetRay_eq]
    simp only [B32.Vec3.toReal, F32.toReal_finite_pos, F32.toReal_finite_neg, Vec3.dot]
    norm_num
  · rw [B32.offsetRay_eq, B32.farSphere_eq.1, B32.farSphere_eq.2]
    simp only [B32.Vec3.toReal, F32.toReal_finite_pos, F32.toReal_finite_neg, Vec3.dot,
      Vec3.sub_x, Vec3.sub_y, Vec3.sub_z]
    rw [gt_iff_lt, Real.lt_sqrt (by norm_num)]
    norm_num
  · rw [B32.farSphere_eq.2, F32.toReal_finite_pos]
    norm_num

theorem B32.brightSphere_eq :
    B32.brightSphere.color
      = ⟨F32.finite false ((2 ^ 24 - 1) * 2 ^ 253), F32.finite false 0, F32.finite false 0⟩ ∧
    B32.brightSphere.reflectivity = F32.finite false (2 ^ 149) := by
  decide

/-- C15 fails as stated, on the code's binary32 arithmetic.  The unit sphere at
`(0, 0, -5)` has the non-negative base colour `(FLT_MAX, 0, 0)` and reflectivity
`1`; for the ray from the origin along `(0, 0, -1)` and the light `(0, 0, 10)`,
`ambient + diffuse` overflows to `+inf` in channel `x` (rt.cpp 114), the blend
multiplies it by `1 - 1 = 0` (rt.cpp 120), and the channel returned is a NaN,
which is not `≥ 0`. -/
theorem binary32_channel_nan :
    (0 ≤ F32.toReal B32.brightSphere.color.x ∧ 0 ≤ F32.toReal B32.brightSphere.color.y ∧
      0 ≤ F32.toReal B32.brightSphere.color.z) ∧
    (0 ≤ F32.toReal B32.brightSphere.reflectivity ∧
      F32.toReal B32.brightSphere.reflectivity ≤ 1) ∧
    (B32.localColor B32.axisRay (F32.ofNat 4) B32.brightSphere (B32.vec 0 0 10)).x
      = F32.inf false ∧
    (B32.calculateColor B32.axisRay ⟨[B32.brightSphere]⟩ (B32.vec 0 0 10) 0).x = F32.nan := by
  refine ⟨?_, ?_, by decide, by decide⟩
  · rw [B32.brightSphere_eq.1]
    simp only [F32.toReal_finite_pos]
    refine ⟨by positivity, by norm_num, by norm_num⟩
  · rw [B32.brightSphere_eq.2, F32.toReal_finite_pos]
    norm_num

theorem B32.distantGlass_eq :
    B32.distantGlass.center
      = ⟨F32.finite false 0, F32.finite false 0, F32.finite true (1000 * 2 ^ 149)⟩ ∧
    B32.distantGlass.radius = F32.finite false (2 ^ 149) := by
  decide

theorem B32.refraction_origin_eq :
    (B32.refractionRay B32.slantedRay (F32.ofNat 999) B32.distantGlass).origin
      = ⟨F32.finite false (13395009 * 2 ^ 122), F32.finite false 0,
          F32.finite true (1022977 * 2 ^ 139)⟩ := by
  decide

/-- C20 fails as stated, on the code's binary32 arithmetic.  The glass unit
sphere at `(0, 0, -1000)` (radius `1 > 0.0005`) is hit by
`Ray(Vec3(0, 0, 0), Vec3(0.0001f, 0, -1))`; rt.cpp 74 computes `t = 999` where
the exact root is `999.005`, so the origin `hitPoint - normal * 0.001f` of the
refraction ray, `(0.0998, 0, -999.00098)`, is at distance `1.004` from the
centre, outside the sphere, and the sphere reports a hit for the refraction ray
(at `t = 0.004`, bits `3b833aff`). -/
theorem binary32_refraction_ray_hits_own_sphere :
    F32.toReal B32.distantGlass.radius > 0.0005 ∧
    B32.Sphere.intersect B32.distantGlass B32.slantedRay = some (F32.ofNat 999) ∧
    ((B32.refractionRay B32.slantedRay (F32.ofNat 999) B32.distantGlass).origin.toReal
        - B32.distantGlass.center.toReal).length
      > F32.toReal B32.distantGlass.radius ∧
    B32.Sphere.intersect B32.distantGlass
        (B32.refractionRay B32.slantedRay (F32.ofNat 999) B32.distantGlass)
      = some (F32.ofBits 0x3b833aff) := by
  refine ⟨?_, by decide, ?_, by decide⟩
  · rw [B32.distantGlass_eq.2, F32.toReal_finite_pos]
    norm_num
  · rw [B32.refraction_origin_eq, B32.distantGlass_eq.1, B32.distantGlass_eq.2]
    simp only [B32.Vec3.toReal, F32.toReal_finite_pos, F32.toReal_finite_neg, Vec3.length,
      Vec3.sub_x, Vec3.sub_y, Vec3.sub_z]
    rw [gt_iff_lt, Real.lt_sqrt (by positivity)]
    norm_num

end RayTraced
